import Mathlib

/-!
Verification of the perspective spec/schema translation engine in
chtools/lib/perspective.py.

The Python code works on nested dicts.  The shallow embedding below uses
structures holding exactly the keys the code reads or writes:

* dict keys the code never touches are omitted (they pass through both
  translation directions unchanged), except for clause keys, which are kept
  as an opaque `extra` association list because rule conditions are compared
  for equality by the round-trip property;
* an `Option` field with value `none` models a missing dict key;
* Python `None` stored under a present key is modelled by the empty string,
  which has the same truthiness, the only property the code ever uses of it;
* Python exceptions are modelled by `Except` with an error type whose
  constructors are the distinct raise sites / exception classes.
-/

deriving instance DecidableEq for Except

namespace Chtools

/-- Decimal digits of a natural number, least significant digit first.  The
first argument is recursion fuel; fuel of at least n suffices. -/
def natDigitsAux : Nat → Nat → List Nat
  | 0, _ => []
  | _ + 1, 0 => []
  | fuel + 1, n + 1 => ((n + 1) % 10) :: natDigitsAux fuel ((n + 1) / 10)

/-- Decimal digits of a natural number, least significant digit first. -/
def natDigits (n : Nat) : List Nat := natDigitsAux n n

/-- Value of a little-endian decimal digit list; inverse of natDigits. -/
def ofDigs : List Nat → Nat
  | [] => 0
  | d :: ds => d + 10 * ofDigs ds

/-- The character for a decimal digit. -/
def digitChar (d : Nat) : Char := Char.ofNat (48 + d)

/-- Decimal string representation of a natural number: the embedding of
Python str applied to a non-negative int. -/
def natRepr (n : Nat) : String :=
  if n = 0 then "0" else String.mk ((natDigits n).reverse.map digitChar)

/-- A value stored under a field or tag_field key of a rule or clause:
either a string scalar or a list of strings. -/
inductive FieldVal where
  | str (s : String)
  | list (l : List String)
  deriving DecidableEq

/-- One clause of a rule condition.  Only the field and tag_field keys are
ever inspected or rewritten; remaining keys are kept opaquely in extra. -/
structure Clause where
  field : Option FieldVal
  tag_field : Option FieldVal
  extra : List (String × String) := []
  deriving DecidableEq

/-- A rule condition: a dict holding a clauses list. -/
structure Condition where
  clauses : List Clause
  deriving DecidableEq

/-- A rule dict, in spec or schema form (the code mutates one dict between
the two forms, so both forms share this type).  The field to_ embeds the
dict key named to, which is a reserved word in Lean. -/
structure Rule where
  type : String
  field : Option FieldVal := none
  tag_field : Option FieldVal := none
  to_ : Option String := none
  ref_id : Option String := none
  condition : Option Condition := none
  deriving DecidableEq

/-- A value of the include_in_reports key: the stored schema uses the string
form, a spec loaded from YAML typically uses a bool. -/
inductive IncVal where
  | str (s : String)
  | bool (b : Bool)
  deriving DecidableEq

/-- A constant item: one named group inside a constant-group block. -/
structure ConstantItem where
  ref_id : String
  name : String
  is_other : Bool := false
  deriving DecidableEq

/-- A constant-group block of the schema: a type tag and an item list. -/
structure ConstantGroup where
  type : String
  list : List ConstantItem
  deriving DecidableEq

/-- The schema dict of a perspective. -/
structure Schema where
  name : String
  include_in_reports : IncVal
  merges : List String := []
  constants : List ConstantGroup
  rules : List Rule := []
  deriving DecidableEq

/-- The spec dict of a perspective. -/
structure Spec where
  name : String
  include_in_reports : Option IncVal := none
  rules : List Rule
  deriving DecidableEq

/-- Python exceptions raised by the embedded code, one constructor per
distinct raise site or exception class. -/
inductive PyErr where
  /-- Reading a missing dict key. -/
  | keyError (key : String)
  /-- RuntimeError of the unknown-rule-type raise in _spec_rule_to_schema. -/
  | unknownRuleType
  /-- RuntimeError of the single-item-list raises in _spec_from_schema. -/
  | malformedRuleField
  /-- RuntimeError of the name-comparison raise in PerspectiveClient.update. -/
  | nameMismatch
  /-- AttributeError from calling .get on None. -/
  | attributeError
  /-- TypeError from subscripting None. -/
  | typeError
  deriving DecidableEq

/-- Truthiness of an optionally present string-valued dict entry: a missing
key and the empty string (standing for Python None or an empty value) are
falsy. -/
def truthyS : Option String → Bool
  | none => false
  | some s => s ≠ ""

/-- Truthiness of an include_in_reports value. -/
def incTruthy : IncVal → Bool
  | .str s => s ≠ ""
  | .bool b => b

/-- The default "empty schema" installed by Perspective.__init__ when no
perspective id is given. -/
def defaultSchema : Schema :=
  { name := "EMPTY"
    merges := []
    constants := [{ type := "Static Group"
                    list := [{ ref_id := "1234567890", name := "Other", is_other := true }] }]
    include_in_reports := .str "true"
    rules := [] }

/-- Is a constant group of one of the two types whose items take part in
ref_id allocation and name/id lookup (Perspective constant_types). -/
def relevantType (t : String) : Bool :=
  t == "Static Group" || t == "Dynamic Group Block"

/-- The items of the relevant constant groups of a schema, in the order the
Python loops scan them. -/
def relItems (sc : Schema) : List ConstantItem :=
  (sc.constants.filter (fun g => relevantType g.type)).flatMap (fun g => g.list)

/-- Perspective._get_ref_id_by_name: the ref_id of the first non-Other item
of a relevant constant group with the given name. -/
def getRefIdByName (sc : Schema) (constantName : String) : Option String :=
  ((relItems sc).find? (fun it => it.name == constantName && !it.is_other)).map
    (fun it => it.ref_id)

/-- Perspective._get_name_by_ref_id: the name of the first non-Other item of
a relevant constant group with the given ref_id. -/
def getNameByRefId (sc : Schema) (refId : String) : Option String :=
  ((relItems sc).find? (fun it => it.ref_id == refId && !it.is_other)).map
    (fun it => it.name)

/-- The ref_ids present in the relevant constant groups, the list against
which Perspective._get_new_ref_id checks candidates. -/
def existingRefIds (sc : Schema) : List String :=
  (relItems sc).map (fun it => it.ref_id)

/-- The loop of Perspective._get_new_ref_id: keep incrementing the counter
until its decimal string is not among the existing ref_ids.  The Python
while loop always terminates because only finitely many ids exist; here the
fuel argument bounds the search and getNewRefIdAux_isSome shows fuel of
length existing + 1 always suffices. -/
def getNewRefIdAux (existing : List String) : Nat → Nat → Option (String × Nat)
  | 0, _ => none
  | fuel + 1, c =>
    if natRepr (c + 1) ∈ existing then getNewRefIdAux existing fuel (c + 1)
    else some (natRepr (c + 1), c + 1)

/-- Perspective._get_new_ref_id: increment the session counter past any
existing ref_id and return the decimal string of the first free value
together with the new counter.  The getD default is unreachable: theorem
getNewRefIdAux_isSome below shows the bounded search always succeeds. -/
def getNewRefId (existing : List String) (c : Nat) : String × Nat :=
  (getNewRefIdAux existing (existing.length + 1) c).getD (natRepr (c + 1), c + 1)

/-- Append an item to the item list of the first constant group with the
given type tag, as the mutation in the create branch of
Perspective._add_constant does. -/
def appendToGroup (ctype : String) (item : ConstantItem) :
    List ConstantGroup → List ConstantGroup
  | [] => []
  | g :: gs =>
    if g.type == ctype then { g with list := g.list ++ [item] } :: gs
    else g :: appendToGroup ctype item gs

/-- The create branch of Perspective._add_constant: find or create the
constant group of the requested type, allocate a fresh ref_id, and append
the new named item to that group. -/
def addConstantNew (constantName ctype : String) (c : Nat) (sc : Schema) :
    String × Nat × Schema :=
  let sc1 := if sc.constants.any (fun g => g.type == ctype) then sc
             else { sc with constants := sc.constants ++ [{ type := ctype, list := [] }] }
  let rc := getNewRefId (existingRefIds sc1) c
  (rc.1, rc.2,
    { sc1 with constants :=
        appendToGroup ctype { ref_id := rc.1, name := constantName } sc1.constants })

/-- Perspective._add_constant: return the ref_id of an existing constant
with the given name if its ref_id is truthy, otherwise create the constant.
The extra Nat argument threads the _new_ref_id instance counter. -/
def addConstant (constantName ctype : String) (c : Nat) (sc : Schema) :
    String × Nat × Schema :=
  match getRefIdByName sc constantName with
  | some r => if r ≠ "" then (r, c, sc) else addConstantNew constantName ctype c sc
  | none => addConstantNew constantName ctype c sc

/-- Character-wise lowercasing, the embedding of str.lower() on the ASCII
rule-type strings the code compares. -/
def strToLower (s : String) : String := String.mk (s.data.map Char.toLower)

/-- The scalar-to-list coercion applied by _spec_rule_to_schema to values of
the single-item-list keys: wrap a string, leave anything else unchanged. -/
def wrapField : Option FieldVal → Option FieldVal
  | some (.str s) => some (.list [s])
  | v => v

/-- Apply the scalar-to-list coercion to both designated keys of a clause. -/
def wrapClause (cl : Clause) : Clause :=
  { cl with field := wrapField cl.field, tag_field := wrapField cl.tag_field }

/-- The constant-name lookup at the head of _spec_rule_to_schema: the value
of the to key if truthy, else the value of the ref_id key, with the
KeyError of the corresponding missing key. -/
def specRuleName (rule : Rule) : Except PyErr String :=
  match rule.to_ with
  | none => .error (.keyError "to")
  | some tv =>
    if tv ≠ "" then .ok tv
    else match rule.ref_id with
      | none => .error (.keyError "ref_id")
      | some v => .ok v

/-- The rewrite of a filter (or search) spec rule into schema form: type
canonicalised, to set to the allocated ref_id (ref_id untouched), and the
single-item-list coercion applied at rule level and in every clause. -/
def filterSchemaRule (rule : Rule) (rid : String) : Rule :=
  { rule with
    type := "filter"
    to_ := some rid
    field := wrapField rule.field
    tag_field := wrapField rule.tag_field
    condition := rule.condition.map (fun cond => ⟨cond.clauses.map wrapClause⟩) }

/-- The rewrite of a categorize spec rule into schema form: ref_id set to
the allocated ref_id, the to key removed, type untouched, and the
single-item-list coercion applied at rule level and in every clause. -/
def categorizeSchemaRule (rule : Rule) (rid : String) : Rule :=
  { rule with
    to_ := none
    ref_id := some rid
    field := wrapField rule.field
    tag_field := wrapField rule.tag_field
    condition := rule.condition.map (fun cond => ⟨cond.clauses.map wrapClause⟩) }

/-- Perspective._spec_rule_to_schema: translate one spec rule into schema
form, ensuring its target constant exists, and append it to schema.rules
(the trailing _add_rule call).  Returns the rewritten rule as well so that
the heap-level model below can store it back into the caller's object. -/
def specRuleToSchema (rule : Rule) (c : Nat) (sc : Schema) :
    Except PyErr (Rule × Nat × Schema) :=
  match specRuleName rule with
  | .error e => .error e
  | .ok constantName =>
    let rt := strToLower rule.type
    if rt = "filter" ∨ rt = "search" then
      let rc := addConstant constantName "Static Group" c sc
      let rule5 := filterSchemaRule rule rc.1
      .ok (rule5, rc.2.1, { rc.2.2 with rules := rc.2.2.rules ++ [rule5] })
    else if rt = "categorize" then
      let rc := addConstant constantName "Dynamic Group Block" c sc
      let rule5 := categorizeSchemaRule rule rc.1
      .ok (rule5, rc.2.1, { rc.2.2 with rules := rc.2.2.rules ++ [rule5] })
    else .error .unknownRuleType

/-- The rule loop shared by Perspective._schema_from_spec and the spec
setter: translate each spec rule in order, threading counter and schema. -/
def applyRules : List Rule → Nat → Schema → Except PyErr (Nat × Schema)
  | [], c, sc => .ok (c, sc)
  | r :: rs, c, sc =>
    match specRuleToSchema r c sc with
    | .error e => .error e
    | .ok rcs => applyRules rs rcs.2.1 rcs.2.2

/-- Perspective._schema_from_spec / the spec setter: overwrite the schema
name, overwrite include_in_reports when the spec value is truthy, drop all
existing rules, then translate every spec rule. -/
def schemaFromSpec (spec : Spec) (c : Nat) (sc : Schema) : Except PyErr (Nat × Schema) :=
  let sc1 := { sc with name := spec.name }
  let sc2 := match spec.include_in_reports with
    | some v => if incTruthy v then { sc1 with include_in_reports := v } else sc1
    | none => sc1
  applyRules spec.rules c { sc2 with rules := [] }

/-- The list-to-scalar coercion applied by _spec_from_schema to values of
the single-item-list keys: a one-element list becomes its element, any
other list raises, non-list values are untouched. -/
def unwrapField : Option FieldVal → Except PyErr (Option FieldVal)
  | some (.list [x]) => .ok (some (.str x))
  | some (.list _) => .error .malformedRuleField
  | v => .ok v

/-- Apply the list-to-scalar coercion to both designated keys of a clause. -/
def unwrapClause (cl : Clause) : Except PyErr Clause :=
  match unwrapField cl.field with
  | .error e => .error e
  | .ok f =>
    match unwrapField cl.tag_field with
    | .error e => .error e
    | .ok tf => .ok { cl with field := f, tag_field := tf }

/-- Apply the list-to-scalar coercion to every clause in order, stopping at
the first failure. -/
def unwrapClauses : List Clause → Except PyErr (List Clause)
  | [] => .ok []
  | cl :: cls =>
    match unwrapClause cl with
    | .error e => .error e
    | .ok cl2 =>
      match unwrapClauses cls with
      | .error e => .error e
      | .ok cls2 => .ok (cl2 :: cls2)

/-- The per-rule body of Perspective._spec_from_schema: rename a truthy
ref_id key to to, replace the ref_id under to by the constant name found in
the schema (None, modelled as the empty string, when unresolved), then
coerce the single-item-list keys at rule level and inside the condition. -/
def specFormRule (sc : Schema) (rule : Rule) : Except PyErr Rule :=
  let r1 := if truthyS rule.ref_id then { rule with to_ := rule.ref_id, ref_id := none }
            else rule
  match r1.to_ with
  | none => .error (.keyError "to")
  | some v =>
    let r2 := { r1 with to_ := some ((getNameByRefId sc v).getD "") }
    match unwrapField r2.field with
    | .error e => .error e
    | .ok f =>
      match unwrapField r2.tag_field with
      | .error e => .error e
      | .ok tf =>
        let r3 := { r2 with field := f, tag_field := tf }
        match r3.condition with
        | none => .ok r3
        | some cond =>
          match unwrapClauses cond.clauses with
          | .error e => .error e
          | .ok cls => .ok { r3 with condition := some ⟨cls⟩ }

/-- The rule loop of Perspective._spec_from_schema. -/
def specFormRules (sc : Schema) : List Rule → Except PyErr (List Rule)
  | [] => .ok []
  | r :: rs =>
    match specFormRule sc r with
    | .error e => .error e
    | .ok r2 =>
      match specFormRules sc rs with
      | .error e => .error e
      | .ok rs2 => .ok (r2 :: rs2)

/-- Perspective._spec_from_schema: derive the spec dict from the schema,
keeping name and include_in_reports and dropping merges and constants. -/
def specFromSchema (sc : Schema) : Except PyErr Spec :=
  match specFormRules sc sc.rules with
  | .error e => .error e
  | .ok rs => .ok { name := sc.name, include_in_reports := some sc.include_in_reports
                    rules := rs }

/-- The argument-validation prefix of PerspectiveClient.update, given the
target perspective's current name: when a schema or spec is provided, the
declared name is read via schema.get, so a call with a spec and no schema
hits None.get and raises AttributeError; a name disagreement raises the
RuntimeError modelled as nameMismatch. -/
def clientUpdateNameCheck (currentName : String) (schema : Option Schema)
    (spec : Option Spec) : Except PyErr Unit :=
  match schema, spec with
  | none, none => .ok ()
  | none, some _ => .error .attributeError
  | some sch, sp =>
    if sch.name ≠ "" then
      if currentName ≠ sch.name then .error .nameMismatch else .ok ()
    else
      match sp with
      | none => .error .typeError
      | some s => if currentName ≠ s.name then .error .nameMismatch else .ok ()

/-- A run of RefIdAllocator calls: one _get_new_ref_id call per listed
schema state, threading the session counter, collecting (id, counter). -/
def allocRun : Nat → List Schema → List (String × Nat)
  | _, [] => []
  | c, sc :: rest =>
    let rc := getNewRefId (existingRefIds sc) c
    rc :: allocRun rc.2 rest

/-- The ids returned by a run of RefIdAllocator calls seeded at the fixed
per-session starting counter 100. -/
def allocIds (schemas : List Schema) : List String :=
  (allocRun 100 schemas).map (fun rc => rc.1)

/-- Placeholder rule used as the out-of-bounds default of heap reads. -/
def dummyRule : Rule := { type := "" }

/-- Heap-level model of the rule loop of the spec setter, making the
in-place mutation of the caller's rule dicts observable: the caller's spec
holds addresses of rule objects in the heap (a list indexed by address);
each step reads the rule at the next address, translates it, writes the
rewritten rule back into the same cell, and records the address appended to
schema.rules.  Returns the final heap, counter, schema and the appended
address list. -/
def applyHeap : List Nat → List Rule → Nat → Schema →
    Except PyErr (List Rule × Nat × Schema × List Nat)
  | [], heap, c, sc => .ok (heap, c, sc, [])
  | a :: as, heap, c, sc =>
    match specRuleToSchema (heap.getD a dummyRule) c sc with
    | .error e => .error e
    | .ok rcs =>
      match applyHeap as (heap.set a rcs.1) rcs.2.1 rcs.2.2 with
      | .error e => .error e
      | .ok out => .ok (out.1, out.2.1, out.2.2.1, a :: out.2.2.2)

/-- A field or tag_field value in spec form: absent or a scalar. -/
def fieldOk : Option FieldVal → Bool
  | none => true
  | some (.str _) => true
  | some (.list _) => false

/-- Both designated keys of a clause are in spec form. -/
def clauseOk (cl : Clause) : Bool := fieldOk cl.field && fieldOk cl.tag_field

/-- Every clause of an optional condition is in spec form. -/
def condOk : Option Condition → Bool
  | none => true
  | some cond => cond.clauses.all clauseOk

/-- A spec rule that round-trips: canonical lowercase type, scalar fields,
and for a filter rule a truthy to key with no truthy leftover ref_id key,
for a categorize rule a present to key and a truthy to or ref_id. -/
def goodRule (r : Rule) : Bool :=
  fieldOk r.field && fieldOk r.tag_field && condOk r.condition &&
  ((r.type == "filter" && truthyS r.to_ && !truthyS r.ref_id) ||
   (r.type == "categorize" && r.to_.isSome && (truthyS r.to_ || truthyS r.ref_id)))

/-- The group name a rule designates: the to value when truthy, otherwise
the ref_id value (the claims compare rules by this name). -/
def ruleGroupName (r : Rule) : String :=
  match r.to_ with
  | some s => if s ≠ "" then s else r.ref_id.getD ""
  | none => r.ref_id.getD ""

/-- The comparison tuple of the round-trip claim: type, group name, field,
tag_field and condition of a rule. -/
def ruleTuple (r : Rule) :
    String × String × Option FieldVal × Option FieldVal × Option Condition :=
  (r.type, ruleGroupName r, r.field, r.tag_field, r.condition)

/-- A schema rule carries a group reference: a truthy ref_id key or a
present to key, so that deriving it cannot hit a KeyError. -/
def keysOk (r : Rule) : Bool := truthyS r.ref_id || r.to_.isSome

/-- A field value that makes _spec_from_schema raise: a list whose length
is not exactly one. -/
def badField : Option FieldVal → Bool
  | some (.list l) => !(l.length == 1)
  | _ => false

/-- Some designated key of a clause holds a bad list. -/
def badClause (cl : Clause) : Bool := badField cl.field || badField cl.tag_field

/-- Some designated key of a rule, at top level or inside a clause of its
condition, holds a bad list. -/
def badRule (r : Rule) : Bool :=
  badField r.field || badField r.tag_field ||
  (match r.condition with
   | some cond => cond.clauses.any badClause
   | none => false)

/-- Modelled from the claim wording of C6: a one-element sequence is
replaced by its single element, anything else is untouched. -/
def unwOne : Option FieldVal → Option FieldVal
  | some (.list [x]) => some (.str x)
  | v => v

/-- unwOne applied to both designated keys of a clause. -/
def clauseUnw (cl : Clause) : Clause :=
  { cl with field := unwOne cl.field, tag_field := unwOne cl.tag_field }

/-- unwOne applied inside every clause of an optional condition. -/
def condUnw : Option Condition → Option Condition
  | none => none
  | some cond => some ⟨cond.clauses.map clauseUnw⟩

/-- The spec of round-trip Scenario A. -/
def envSpec : Spec :=
  { name := "Env", rules := [{ type := "filter", field := some (.str "env"), to_ := some "prod" }] }

/-- Scenario A's spec with the type alias search instead of filter. -/
def searchSpec : Spec :=
  { name := "Env", rules := [{ type := "search", field := some (.str "env"), to_ := some "prod" }] }

/-- A spec that carries include_in_reports with the boolean value false. -/
def incFalseSpec : Spec :=
  { name := "Env", include_in_reports := some (.bool false), rules := [] }

/-- A schema whose single rule references the ref_id 999 that matches no
constant item. -/
def unresolvedSchema : Schema :=
  { defaultSchema with
    rules := [{ type := "filter", field := some (.list ["env"]), to_ := some "999" }] }

/-- A legacy categorize spec rule carrying only a ref_id key and no to
key. -/
def legacyCategorizeRule : Rule :=
  { type := "categorize", field := some (.str "team"), ref_id := some "Platform" }

/-- A schema holding a static-group item whose name is the numeral 101,
equal to the ref_id the allocator would hand out for it. -/
def tricky101Schema : Schema :=
  { defaultSchema with
    constants := [{ type := "Static Group"
                    list := [{ ref_id := "1234567890", name := "Other", is_other := true },
                             { ref_id := "101", name := "101" }] }] }

/-- A spec rule already carrying a list-valued field and pointing at the
group named 101. -/
def tricky101Rule : Rule :=
  { type := "filter", field := some (.list ["env"]), to_ := some "101" }

/-- The schema produced by applying envSpec or searchSpec to the default
schema. -/
def scenarioASchema : Schema :=
  { name := "Env"
    merges := []
    constants := [{ type := "Static Group"
                    list := [{ ref_id := "1234567890", name := "Other", is_other := true },
                             { ref_id := "101", name := "prod" }] }]
    include_in_reports := .str "true"
    rules := [{ type := "filter", field := some (.list ["env"]), to_ := some "101" }] }

/-- The spec derived back from scenarioASchema. -/
def scenarioASpecBack : Spec :=
  { name := "Env"
    include_in_reports := some (.str "true")
    rules := [{ type := "filter", field := some (.str "env"), to_ := some "prod" }] }

/-- The schema after a first _add_constant of name x with the Dynamic Group
type on the default schema. -/
def dynGroupSchema1 : Schema :=
  { defaultSchema with
    constants := defaultSchema.constants ++
      [{ type := "Dynamic Group", list := [{ ref_id := "101", name := "x" }] }] }

/-- The schema after a second identical _add_constant call on
dynGroupSchema1. -/
def dynGroupSchema2 : Schema :=
  { defaultSchema with
    constants := defaultSchema.constants ++
      [{ type := "Dynamic Group"
         list := [{ ref_id := "101", name := "x" }, { ref_id := "102", name := "x" }] }] }

/-- The spec rule of Scenario A, as one caller-owned heap cell. -/
def heapDemoRule : Rule :=
  { type := "filter", field := some (.str "env"), to_ := some "prod" }

/-- The schema form heapDemoRule is mutated into. -/
def heapDemoRule2 : Rule :=
  { type := "filter", field := some (.list ["env"]), to_ := some "101" }

/-- The schema produced while translating heapDemoRule against the default
schema (no name overwrite happens at this level). -/
def heapDemoSchema2 : Schema :=
  { defaultSchema with
    constants := [{ type := "Static Group"
                    list := [{ ref_id := "1234567890", name := "Other", is_other := true },
                             { ref_id := "101", name := "prod" }] }]
    rules := [heapDemoRule2] }

/-- A schema whose single rule has a two-element field list (Scenario D). -/
def twoFieldSchema : Schema :=
  { defaultSchema with
    rules := [{ type := "filter", field := some (.list ["env", "env2"]), to_ := some "999" }] }

/-- The spec derived from unresolvedSchema: derivation succeeds and the
unresolved reference becomes the null name. -/
def unresolvedSpecBack : Spec :=
  { name := "EMPTY"
    include_in_reports := some (.str "true")
    rules := [{ type := "filter", field := some (.str "env"), to_ := some "" }] }

/-! Facts about the decimal representation. -/

theorem ofDigs_natDigitsAux : ∀ (fuel n : Nat), n ≤ fuel → ofDigs (natDigitsAux fuel n) = n := by
  intro fuel
  induction fuel with
  | zero =>
    intro n h
    interval_cases n
    simp [natDigitsAux, ofDigs]
  | succ fuel ih =>
    intro n h
    match n with
    | 0 => simp [natDigitsAux, ofDigs]
    | m + 1 =>
      rw [natDigitsAux, ofDigs]
      have hlt : (m + 1) / 10 < m + 1 := Nat.div_lt_self (Nat.succ_pos m) (by norm_num)
      rw [ih ((m + 1) / 10) (by omega)]
      exact Nat.mod_add_div (m + 1) 10

theorem ofDigs_natDigits (n : Nat) : ofDigs (natDigits n) = n :=
  ofDigs_natDigitsAux n n (Nat.le_refl n)

theorem natDigits_injective : Function.Injective natDigits := by
  intro a b h
  have := congrArg ofDigs h
  rwa [ofDigs_natDigits, ofDigs_natDigits] at this

theorem natDigitsAux_mem_lt : ∀ (fuel n d : Nat), d ∈ natDigitsAux fuel n → d < 10 := by
  intro fuel
  induction fuel with
  | zero => intro n d h; simp [natDigitsAux] at h
  | succ fuel ih =>
    intro n d h
    match n with
    | 0 => simp [natDigitsAux] at h
    | m + 1 =>
      rw [natDigitsAux] at h
      rcases List.mem_cons.mp h with h | h
      · subst h; exact Nat.mod_lt _ (by norm_num)
      · exact ih _ d h

theorem digitChar_injOn (d : Nat) (hd : d < 10) (e : Nat) (he : e < 10)
    (h : digitChar d = digitChar e) : d = e := by
  interval_cases d <;> interval_cases e <;> revert h <;> decide

theorem map_digitChar_inj :
    ∀ (l1 l2 : List Nat), (∀ x ∈ l1, x < 10) → (∀ x ∈ l2, x < 10) →
      l1.map digitChar = l2.map digitChar → l1 = l2 := by
  intro l1
  induction l1 with
  | nil =>
    intro l2 _ _ h
    cases l2 with
    | nil => rfl
    | cons y ys => simp at h
  | cons x xs ih =>
    intro l2 h1 h2 h
    cases l2 with
    | nil => simp at h
    | cons y ys =>
      simp only [List.map_cons, List.cons.injEq] at h
      have hx : x = y :=
        digitChar_injOn x (h1 x (by simp)) y (h2 y (by simp)) h.1
      have hxs : xs = ys :=
        ih ys (fun z hz => h1 z (by simp [hz])) (fun z hz => h2 z (by simp [hz])) h.2
      rw [hx, hxs]

theorem natDigits_eq_nil_iff (n : Nat) : natDigits n = [] ↔ n = 0 := by
  constructor
  · intro h
    have := ofDigs_natDigits n
    rw [h] at this
    simpa [ofDigs] using this.symm
  · intro h
    subst h
    rfl

theorem natRepr_data (n : Nat) (hn : n ≠ 0) :
    (natRepr n).data = (natDigits n).reverse.map digitChar := by
  unfold natRepr
  rw [if_neg hn]

theorem natRepr_eq_zero_str (n : Nat) (h : natRepr n = "0") : n = 0 := by
  by_contra hn
  have hd := congrArg String.data h
  rw [natRepr_data n hn] at hd
  have h0 : ("0" : String).data = List.map digitChar [0] := by decide
  rw [h0] at hd
  have hrev : (natDigits n).reverse = [0] :=
    map_digitChar_inj _ _ (fun x hx => natDigitsAux_mem_lt _ _ _ (List.mem_reverse.mp hx))
      (by intro x hx; simp at hx; omega) hd
  have hdn : natDigits n = [0] := by
    have := congrArg List.reverse hrev
    simpa using this
  have hofd := ofDigs_natDigits n
  rw [hdn] at hofd
  simp [ofDigs] at hofd
  exact hn hofd.symm

theorem natRepr_injective : Function.Injective natRepr := by
  intro a b h
  by_cases ha : a = 0 <;> by_cases hb : b = 0
  · rw [ha, hb]
  · exfalso
    subst ha
    have hb0 := natRepr_eq_zero_str b h.symm
    exact hb hb0
  · exfalso
    subst hb
    have ha0 := natRepr_eq_zero_str a h
    exact ha ha0
  · have hd := congrArg String.data h
    rw [natRepr_data a ha, natRepr_data b hb] at hd
    have hrev : (natDigits a).reverse = (natDigits b).reverse :=
      map_digitChar_inj _ _ (fun x hx => natDigitsAux_mem_lt _ _ _ (List.mem_reverse.mp hx))
        (fun x hx => natDigitsAux_mem_lt _ _ _ (List.mem_reverse.mp hx)) hd
    exact natDigits_injective (List.reverse_injective hrev)

theorem natRepr_ne_empty (n : Nat) : natRepr n ≠ "" := by
  unfold natRepr
  split
  · decide
  · rename_i hn
    intro h
    have hd := congrArg String.data h
    simp at hd
    exact hn ((natDigits_eq_nil_iff n).mp hd)

/-! Facts about the ref_id allocator. -/

theorem getNewRefIdAux_none {existing : List String} :
    ∀ {fuel c : Nat}, getNewRefIdAux existing fuel c = none →
      ∀ i < fuel, natRepr (c + 1 + i) ∈ existing := by
  intro fuel
  induction fuel with
  | zero => intro c _ i hi; omega
  | succ fuel ih =>
    intro c h i hi
    rw [getNewRefIdAux] at h
    split at h
    · rename_i hmem
      cases i with
      | zero => simpa using hmem
      | succ j =>
        have := ih h j (by omega)
        have harith : c + 1 + 1 + j = c + 1 + (j + 1) := by omega
        rwa [harith] at this
    · exact absurd h (by simp)

theorem getNewRefIdAux_spec {existing : List String} :
    ∀ {fuel c : Nat} {r : String} {c2 : Nat},
      getNewRefIdAux existing fuel c = some (r, c2) →
      r = natRepr c2 ∧ c < c2 ∧ r ∉ existing := by
  intro fuel
  induction fuel with
  | zero => intro c r c2 h; simp [getNewRefIdAux] at h
  | succ fuel ih =>
    intro c r c2 h
    rw [getNewRefIdAux] at h
    split at h
    · obtain ⟨h1, h2, h3⟩ := ih h
      exact ⟨h1, by omega, h3⟩
    · rename_i hmem
      simp only [Option.some.injEq, Prod.mk.injEq] at h
      obtain ⟨hr, hc⟩ := h
      subst hr
      subst hc
      exact ⟨rfl, Nat.lt_succ_self c, hmem⟩

theorem getNewRefIdAux_isSome (existing : List String) (c : Nat) :
    (getNewRefIdAux existing (existing.length + 1) c).isSome := by
  by_contra hcon
  rw [Option.not_isSome_iff_eq_none] at hcon
  have hmem := getNewRefIdAux_none hcon
  have hnd : ((List.range (existing.length + 1)).map (fun i => natRepr (c + 1 + i))).Nodup := by
    refine List.Nodup.map ?_ (List.nodup_range _)
    intro i j hij
    have := natRepr_injective hij
    omega
  have hcard1 :
      ((List.range (existing.length + 1)).map (fun i => natRepr (c + 1 + i))).toFinset.card
        = existing.length + 1 := by
    rw [List.toFinset_card_of_nodup hnd]
    simp
  have hsub :
      ((List.range (existing.length + 1)).map (fun i => natRepr (c + 1 + i))).toFinset
        ⊆ existing.toFinset := by
    intro x hx
    rw [List.mem_toFinset] at hx ⊢
    rw [List.mem_map] at hx
    obtain ⟨i, hi, rfl⟩ := hx
    exact hmem i (List.mem_range.mp hi)
  have hle := Finset.card_le_card hsub
  have hfin := existing.toFinset_card_le
  omega

theorem getNewRefId_spec (existing : List String) (c : Nat) :
    ∃ c2, getNewRefId existing c = (natRepr c2, c2) ∧ c < c2 ∧ natRepr c2 ∉ existing := by
  have hs := getNewRefIdAux_isSome existing c
  rw [Option.isSome_iff_exists] at hs
  obtain ⟨⟨r, c2⟩, hsome⟩ := hs
  obtain ⟨h1, h2, h3⟩ := getNewRefIdAux_spec hsome
  subst h1
  exact ⟨c2, by simp [getNewRefId, hsome], h2, h3⟩

theorem allocRun_mem :
    ∀ (schemas : List Schema) (c : Nat) (rc : String × Nat), rc ∈ allocRun c schemas →
      rc.1 = natRepr rc.2 ∧ c < rc.2 := by
  intro schemas
  induction schemas with
  | nil => intro c rc h; simp [allocRun] at h
  | cons sc rest ih =>
    intro c rc h
    rw [allocRun] at h
    obtain ⟨c2, heq, hlt, _⟩ := getNewRefId_spec (existingRefIds sc) c
    rw [heq] at h
    rcases List.mem_cons.mp h with h | h
    · subst h
      exact ⟨rfl, hlt⟩
    · obtain ⟨h1, h2⟩ := ih c2 rc h
      exact ⟨h1, by omega⟩

theorem allocRun_fresh :
    ∀ (schemas : List Schema) (c : Nat),
      List.Forall₂ (fun (rc : String × Nat) sc => rc.1 ∉ existingRefIds sc)
        (allocRun c schemas) schemas := by
  intro schemas
  induction schemas with
  | nil => intro c; simp [allocRun]
  | cons sc rest ih =>
    intro c
    rw [allocRun]
    obtain ⟨c2, heq, _, hni⟩ := getNewRefId_spec (existingRefIds sc) c
    rw [heq]
    exact List.Forall₂.cons hni (ih c2)

theorem allocRun_map_fst_nodup :
    ∀ (schemas : List Schema) (c : Nat), ((allocRun c schemas).map Prod.fst).Nodup := by
  intro schemas
  induction schemas with
  | nil => intro c; simp [allocRun]
  | cons sc rest ih =>
    intro c
    rw [allocRun]
    obtain ⟨c2, heq, _, _⟩ := getNewRefId_spec (existingRefIds sc) c
    rw [heq]
    simp only [List.map_cons]
    rw [List.nodup_cons]
    refine ⟨?_, ih c2⟩
    intro hmem
    rw [List.mem_map] at hmem
    obtain ⟨rc, hrc, hfst⟩ := hmem
    obtain ⟨hrepr, hgt⟩ := allocRun_mem rest c2 rc hrc
    rw [hrepr] at hfst
    have := natRepr_injective hfst
    omega

theorem forall₂_fst_fresh {l : List (String × Nat)} {ls : List Schema}
    (h : List.Forall₂ (fun (rc : String × Nat) sc => rc.1 ∉ existingRefIds sc) l ls) :
    List.Forall₂ (fun id sc => id ∉ existingRefIds sc) (l.map Prod.fst) ls := by
  induction h with
  | nil => exact List.Forall₂.nil
  | cons h1 _ ih => exact List.Forall₂.cons h1 ih

/-- C2.  Allocator uniqueness: over any finite sequence of
_get_new_ref_id calls, with the schema free to change between calls and the
session counter seeded at 100, every call returns a decimal numeral (so in
particular the bounded search embedding the Python while loop never runs
out of fuel) that is fresh with respect to the Static Group and Dynamic
Group Block ref_ids present at the time of the call, and all returned ids
are pairwise distinct. -/
theorem allocator_uniqueness (schemas : List Schema) :
    List.Forall₂ (fun id sc => id ∉ existingRefIds sc) (allocIds schemas) schemas ∧
    (allocIds schemas).Nodup ∧
    ∀ id ∈ allocIds schemas, ∃ m, 100 < m ∧ id = natRepr m := by
  refine ⟨forall₂_fst_fresh (allocRun_fresh schemas 100), allocRun_map_fst_nodup schemas 100, ?_⟩
  intro id hid
  rw [allocIds, List.mem_map] at hid
  obtain ⟨rc, hrc, rfl⟩ := hid
  obtain ⟨h1, h2⟩ := allocRun_mem schemas 100 rc hrc
  exact ⟨rc.2, h2, h1⟩

/-- Instantiation of allocator_uniqueness on a concrete two-call run. -/
theorem allocator_uniqueness_witness :
    (allocIds [defaultSchema, defaultSchema]).Nodup ∧
    allocIds [defaultSchema, defaultSchema] = ["101", "102"] :=
  ⟨(allocator_uniqueness [defaultSchema, defaultSchema]).2.1, by decide⟩

/-- C5.  Scenario A: applying the spec with one filter rule (field env, to
prod) to the default empty schema adds exactly the item with ref_id 101 and
name prod to the Static Group constant and produces exactly the rule list
with type filter, field the one-element list env, and to 101; name and
include_in_reports behave as the code prescribes and the session counter
advances to 101. -/
theorem scenario_a :
    schemaFromSpec envSpec 100 defaultSchema =
      .ok (101,
        { name := "Env"
          merges := []
          constants := [{ type := "Static Group"
                          list := [{ ref_id := "1234567890", name := "Other", is_other := true },
                                   { ref_id := "101", name := "prod" }] }]
          include_in_reports := .str "true"
          rules := [{ type := "filter", field := some (.list ["env"]), to_ := some "101" }] }) := by
  decide

/-- C1 counterexample.  A spec whose single rule uses the documented type
alias search translates without error, but the derived spec's rule has type
filter, so its tuple (type, group name, field, condition) is not in the
original rule-tuple set: the round trip as claimed fails for specs using
the alias. -/
theorem round_trip_search_counterexample :
    schemaFromSpec searchSpec 100 defaultSchema = .ok (101, scenarioASchema) ∧
    specFromSchema scenarioASchema = .ok scenarioASpecBack ∧
    (("filter", "prod", some (FieldVal.str "env"), none, none) ∈
      scenarioASpecBack.rules.map ruleTuple) ∧
    (("filter", "prod", some (FieldVal.str "env"), none, none) ∉
      searchSpec.rules.map ruleTuple) := by
  decide

/-- C3 counterexample.  With the constant kind Dynamic Group, which the
name lookup and the allocator both ignore, a second identical
_add_constant call allocates a fresh ref_id and appends a duplicate item:
ensure is not idempotent for every constant kind. -/
theorem ensure_dynamic_group_not_idempotent :
    addConstant "x" "Dynamic Group" 100 defaultSchema = ("101", 101, dynGroupSchema1) ∧
    addConstant "x" "Dynamic Group" 101 dynGroupSchema1 = ("102", 102, dynGroupSchema2) ∧
    ("102" : String) ≠ "101" ∧ dynGroupSchema2 ≠ dynGroupSchema1 := by
  decide

/-- C4 counterexample.  Deriving a spec from a schema whose rule references
the ref_id 999, which resolves to no constant item, does not fail: it
returns a spec whose rule has the null group name (modelled as the empty
string). -/
theorem unresolved_reference_not_fatal :
    specFromSchema unresolvedSchema = .ok unresolvedSpecBack := by
  decide

/-- C7 counterexample.  A spec carrying include_in_reports with value false
is falsy, so the setter leaves the schema flag at its previous value
instead of overwriting it with false as claimed. -/
theorem include_false_not_propagated :
    schemaFromSpec incFalseSpec 100 defaultSchema =
      .ok (100, { defaultSchema with name := "Env" }) ∧
    ({ defaultSchema with name := "Env" } : Schema).include_in_reports ≠ .bool false := by
  decide

/-- C8.  A legacy categorize spec rule carrying only a ref_id key raises
KeyError at the unconditional read of rule to, instead of reading the group
name from ref_id as the comment above that line and the spec describe. -/
theorem legacy_categorize_keyerror :
    specRuleToSchema legacyCategorizeRule 100 defaultSchema = .error (.keyError "to") := by
  decide

/-- C9.  An update through the client with a spec and no schema evaluates
schema.get on None and dies with AttributeError before the declared names
are ever compared, for every spec and every current perspective name; the
NameMismatch check (and any mutation or submission, which would follow it)
is never reached. -/
theorem update_spec_only_attribute_error (currentName : String) (sp : Spec) :
    clientUpdateNameCheck currentName none (some sp) = .error .attributeError := rfl

/-- C10 counterexample.  For a rule whose field is already a list and whose
to name 101 coincides with the ref_id of the existing group of that name,
translation writes back a rule equal to the original: the caller's rule
object is preserved unchanged, against the claim that any rule carrying a
to group name is left in schema form distinct from its spec form. -/
theorem apply_heap_unchanged_counterexample :
    applyHeap [0] [tricky101Rule] 100 tricky101Schema =
      .ok ([tricky101Rule], 100, { tricky101Schema with rules := [tricky101Rule] }, [0]) := by
  decide

/-! Facts about the constant registry. -/

theorem find?_insert_of_neg {α : Type} (p : α → Bool) (l1 l2 : List α) (x : α)
    (hx : p x = false) : (l1 ++ x :: l2).find? p = (l1 ++ l2).find? p := by
  rw [List.find?_append, List.find?_append, List.find?_cons_of_neg l2 (by simp [hx])]

theorem relItems_set_rules (sc : Schema) (rs : List Rule) :
    relItems { sc with rules := rs } = relItems sc := rfl

theorem existingRefIds_eq (sc : Schema) :
    existingRefIds sc = (relItems sc).map (fun it => it.ref_id) := rfl

theorem appendToGroup_insert (ctype : String) (item : ConstantItem) :
    ∀ gs : List ConstantGroup, relevantType ctype = true →
      gs.any (fun g => g.type == ctype) = true →
      ∃ l1 l2,
        (gs.filter (fun g => relevantType g.type)).flatMap (fun g => g.list) = l1 ++ l2 ∧
        ((appendToGroup ctype item gs).filter (fun g => relevantType g.type)).flatMap
            (fun g => g.list) = l1 ++ item :: l2 := by
  intro gs
  induction gs with
  | nil => intro _ h; simp at h
  | cons g rest ih =>
    intro hrel hany
    rw [appendToGroup]
    by_cases hg : g.type == ctype
    · rw [if_pos hg]
      have hgt : g.type = ctype := by simpa using hg
      have hgrel : relevantType g.type = true := by rw [hgt]; exact hrel
      refine ⟨g.list, (rest.filter (fun g2 => relevantType g2.type)).flatMap (fun g2 => g2.list),
        ?_, ?_⟩
      · simp [List.filter_cons, hgrel]
      · simp [List.filter_cons, hgrel]
    · rw [if_neg hg]
      have hany2 : rest.any (fun g2 => g2.type == ctype) = true := by
        simpa [List.any_cons, hg] using hany
      obtain ⟨l1, l2, h1, h2⟩ := ih hrel hany2
      by_cases hgrel : relevantType g.type
      · exact ⟨g.list ++ l1, l2,
          by simp [List.filter_cons, hgrel, h1], by simp [List.filter_cons, hgrel, h2]⟩
      · exact ⟨l1, l2,
          by simp [List.filter_cons, hgrel, h1], by simp [List.filter_cons, hgrel, h2]⟩

theorem find?_ref_id_of_mem :
    ∀ (l : List ConstantItem) (it : ConstantItem),
      (l.map (fun x => x.ref_id)).Nodup → it ∈ l → it.is_other = false →
      l.find? (fun x => x.ref_id == it.ref_id && !x.is_other) = some it := by
  intro l
  induction l with
  | nil => intro it _ hmem; simp at hmem
  | cons x xs ih =>
    intro it hnd hmem hoth
    rw [List.map_cons, List.nodup_cons] at hnd
    by_cases hpx : (x.ref_id == it.ref_id && !x.is_other) = true
    · rw [List.find?_cons_of_pos xs hpx]
      rcases List.mem_cons.mp hmem with h | h
      · rw [h]
      · exfalso
        have hxr : x.ref_id = it.ref_id := by
          have := (Bool.and_eq_true _ _).mp hpx
          simpa using this.1
        exact hnd.1 (hxr ▸ List.mem_map_of_mem (fun y => y.ref_id) h)
    · rw [List.find?_cons_of_neg xs hpx]
      have hpit : (it.ref_id == it.ref_id && !it.is_other) = true := by simp [hoth]
      rcases List.mem_cons.mp hmem with h | h
      · exact absurd (h ▸ hpit) hpx
      · exact ih it hnd.2 h hoth

theorem getNameByRefId_of_mem (sc : Schema) (hnd : (existingRefIds sc).Nodup)
    (it : ConstantItem) (hmem : it ∈ relItems sc) (hoth : it.is_other = false) :
    getNameByRefId sc it.ref_id = some it.name := by
  unfold getNameByRefId
  rw [find?_ref_id_of_mem (relItems sc) it hnd hmem hoth]
  rfl

theorem addConstantNew_spec (constantName ctype : String) (c : Nat) (sc : Schema)
    (hrel : relevantType ctype = true) (hnd : (existingRefIds sc).Nodup) :
    ∃ r c2 sc2, addConstantNew constantName ctype c sc = (r, c2, sc2) ∧
      r ≠ "" ∧ r ∉ existingRefIds sc ∧ c < c2 ∧
      (existingRefIds sc2).Nodup ∧
      (∀ v n, getNameByRefId sc v = some n → getNameByRefId sc2 v = some n) ∧
      getNameByRefId sc2 r = some constantName ∧
      (getRefIdByName sc constantName = none → getRefIdByName sc2 constantName = some r) ∧
      sc2.rules = sc.rules ∧ sc2.name = sc.name ∧
      sc2.include_in_reports = sc.include_in_reports ∧ sc2.merges = sc.merges := by
  rw [addConstantNew]
  set sc1 := if sc.constants.any (fun g => g.type == ctype) then sc
             else { sc with constants := sc.constants ++ [{ type := ctype, list := [] }] }
    with hsc1
  have hitems1 : relItems sc1 = relItems sc := by
    rw [hsc1]
    split
    · rfl
    · show relItems { sc with constants := sc.constants ++ [{ type := ctype, list := [] }] }
        = relItems sc
      unfold relItems
      rw [List.filter_append, List.flatMap_append]
      simp [List.filter_cons, hrel]
  have hany1 : sc1.constants.any (fun g => g.type == ctype) = true := by
    rw [hsc1]
    split
    · assumption
    · show (sc.constants ++ [({ type := ctype, list := [] } : ConstantGroup)]).any
          (fun g => g.type == ctype) = true
      simp
  have hex1 : existingRefIds sc1 = existingRefIds sc := by
    rw [existingRefIds_eq, existingRefIds_eq, hitems1]
  have hframe1 : sc1.rules = sc.rules ∧ sc1.name = sc.name ∧
      sc1.include_in_reports = sc.include_in_reports ∧ sc1.merges = sc.merges := by
    rw [hsc1]
    split <;> exact ⟨rfl, rfl, rfl, rfl⟩
  obtain ⟨c2, heq, hlt, hfresh⟩ := getNewRefId_spec (existingRefIds sc1) c
  rw [heq]
  rw [hex1] at hfresh
  obtain ⟨l1, l2, hl12, hl12b⟩ :=
    appendToGroup_insert ctype { ref_id := natRepr c2, name := constantName, is_other := false }
      sc1.constants hrel hany1
  have hitems1' : relItems sc1 = l1 ++ l2 := hl12
  have hitems2 : relItems { sc1 with constants :=
      (appendToGroup ctype ({ ref_id := natRepr c2, name := constantName, is_other := false }
        : ConstantItem) sc1.constants) } =
      l1 ++ ({ ref_id := natRepr c2, name := constantName, is_other := false }
        : ConstantItem) :: l2 := hl12b
  have hmem_l12 : ∀ x : ConstantItem, x ∈ l1 ++ l2 → x.ref_id ∈ existingRefIds sc := by
    intro x hx
    rw [existingRefIds_eq]
    exact List.mem_map_of_mem (fun y : ConstantItem => y.ref_id)
      (by rw [← hitems1'] at hx; rwa [hitems1] at hx)
  refine ⟨natRepr c2, c2, _, rfl, natRepr_ne_empty c2, hfresh, hlt, ?_, ?_, ?_, ?_, ?_⟩
  · -- Nodup of the new existingRefIds
    rw [existingRefIds_eq, hitems2, List.map_append, List.map_cons]
    rw [List.nodup_middle, List.nodup_cons, ← List.map_append]
    have hold : ((l1 ++ l2).map (fun it => it.ref_id)).Nodup := by
      rw [← hitems1', ← existingRefIds_eq, hex1]
      exact hnd
    have hni : natRepr c2 ∉ (l1 ++ l2).map (fun it => it.ref_id) := by
      rw [← hitems1', ← existingRefIds_eq, hex1]
      exact hfresh
    exact ⟨hni, hold⟩
  · -- resolutions in sc persist
    intro v n hres
    unfold getNameByRefId at hres ⊢
    rw [hitems2]
    obtain ⟨it, hfind, hname⟩ := Option.map_eq_some'.mp hres
    have hitv : it.ref_id = v := by
      have := List.find?_some hfind
      simpa using ((Bool.and_eq_true _ _).mp this).1
    have hvmem : v ∈ existingRefIds sc := by
      rw [existingRefIds_eq]
      exact hitv ▸ List.mem_map_of_mem (fun y => y.ref_id)
        (List.mem_of_find?_eq_some hfind)
    have hpx : (fun x : ConstantItem => x.ref_id == v && !x.is_other)
        { ref_id := natRepr c2, name := constantName, is_other := false } = false := by
      simp only [Bool.and_eq_false_iff]
      left
      simp only [beq_eq_false_iff_ne, ne_eq]
      intro hc
      exact hfresh (hc ▸ hvmem)
    rw [find?_insert_of_neg _ l1 l2 _ hpx]
    rw [← hitems1', hitems1, hfind]
    simpa using hname
  · -- the new ref id resolves to the constant name
    unfold getNameByRefId
    rw [hitems2, List.find?_append]
    have hl1none : l1.find? (fun x => x.ref_id == natRepr c2 && !x.is_other) = none := by
      rw [List.find?_eq_none]
      intro x hx
      simp only [Bool.and_eq_true, beq_iff_eq, Bool.not_eq_true', not_and]
      intro hxr _
      exact absurd (hxr ▸ hmem_l12 x (List.mem_append_left l2 hx)) hfresh
    rw [hl1none]
    have hhead : (({ ref_id := natRepr c2, name := constantName, is_other := false }
        : ConstantItem) :: l2).find? (fun x => x.ref_id == natRepr c2 && !x.is_other)
        = some { ref_id := natRepr c2, name := constantName, is_other := false } :=
      List.find?_cons_of_pos l2 (by simp)
    rw [Option.none_or, hhead]
    rfl
  · -- when the name was not present, it now resolves to the new ref id
    intro hnone
    unfold getRefIdByName at hnone ⊢
    rw [hitems2]
    have hfnone : (relItems sc).find? (fun x => x.name == constantName && !x.is_other)
        = none := Option.map_eq_none'.mp hnone
    have hfail := List.find?_eq_none.mp hfnone
    rw [List.find?_append]
    have hl1 : l1.find? (fun x => x.name == constantName && !x.is_other) = none := by
      rw [List.find?_eq_none]
      intro x hx
      refine hfail x ?_
      rw [← hitems1, hitems1']
      exact List.mem_append_left l2 hx
    rw [hl1, Option.none_or, List.find?_cons_of_pos l2 (by simp)]
    rfl
  · exact ⟨hframe1.1, hframe1.2.1, hframe1.2.2.1, hframe1.2.2.2⟩

theorem getRefIdByName_some (sc : Schema) (constantName r0 : String)
    (h : getRefIdByName sc constantName = some r0) :
    ∃ it : ConstantItem, it ∈ relItems sc ∧ it.name = constantName ∧
      it.is_other = false ∧ it.ref_id = r0 := by
  unfold getRefIdByName at h
  obtain ⟨it, hfind, hrid⟩ := Option.map_eq_some'.mp h
  have hq := List.find?_some hfind
  rw [Bool.and_eq_true] at hq
  refine ⟨it, List.mem_of_find?_eq_some hfind, by simpa using hq.1, by simpa using hq.2, hrid⟩

theorem addConstant_eq_found (constantName ctype : String) (c : Nat) (sc : Schema)
    (r0 : String) (h : getRefIdByName sc constantName = some r0) (hr : r0 ≠ "") :
    addConstant constantName ctype c sc = (r0, c, sc) := by
  rw [addConstant, h]
  exact if_pos hr

theorem addConstant_eq_new_of_empty (constantName ctype : String) (c : Nat) (sc : Schema)
    (h : getRefIdByName sc constantName = some "") :
    addConstant constantName ctype c sc = addConstantNew constantName ctype c sc := by
  rw [addConstant, h]
  exact if_neg (by simp)

theorem addConstant_eq_new_of_none (constantName ctype : String) (c : Nat) (sc : Schema)
    (h : getRefIdByName sc constantName = none) :
    addConstant constantName ctype c sc = addConstantNew constantName ctype c sc := by
  rw [addConstant, h]

theorem addConstant_spec (constantName ctype : String) (c : Nat) (sc : Schema)
    (hrel : relevantType ctype = true) (hnd : (existingRefIds sc).Nodup) :
    ∃ r c2 sc2, addConstant constantName ctype c sc = (r, c2, sc2) ∧
      r ≠ "" ∧ (existingRefIds sc2).Nodup ∧
      (∀ v n, getNameByRefId sc v = some n → getNameByRefId sc2 v = some n) ∧
      getNameByRefId sc2 r = some constantName ∧
      sc2.rules = sc.rules ∧ sc2.name = sc.name ∧
      sc2.include_in_reports = sc.include_in_reports ∧ sc2.merges = sc.merges := by
  rcases hfind : getRefIdByName sc constantName with _ | r0
  · obtain ⟨r, c2, sc2, heq, h1, _, _, h2, h3, h4, _, h5, h6, h7, h8⟩ :=
      addConstantNew_spec constantName ctype c sc hrel hnd
    exact ⟨r, c2, sc2, by rw [addConstant_eq_new_of_none _ _ _ _ hfind, heq],
      h1, h2, h3, h4, h5, h6, h7, h8⟩
  · by_cases hr0 : r0 = ""
    · obtain ⟨r, c2, sc2, heq, h1, _, _, h2, h3, h4, _, h5, h6, h7, h8⟩ :=
        addConstantNew_spec constantName ctype c sc hrel hnd
      refine ⟨r, c2, sc2, ?_, h1, h2, h3, h4, h5, h6, h7, h8⟩
      rw [hr0] at hfind
      rw [addConstant_eq_new_of_empty _ _ _ _ hfind, heq]
    · obtain ⟨it, hmem, hname, hoth, hrid⟩ := getRefIdByName_some sc constantName r0 hfind
      refine ⟨r0, c, sc, addConstant_eq_found _ _ _ _ _ hfind hr0, hr0, hnd,
        fun v n h => h, ?_, rfl, rfl, rfl, rfl⟩
      rw [← hrid, ← hname]
      exact getNameByRefId_of_mem sc hnd it hmem hoth

/-- C3 (amended).  For the two constant kinds the registry scans (Static
Group and Dynamic Group Block) and a schema whose relevant constant items
carry pairwise distinct truthy ref_ids, two successive identical
_add_constant calls return the same ref_id, and the second call leaves the
counter and the whole schema, in particular every constant group and item
list, unchanged. -/
theorem ensure_idempotent (constantName ctype : String) (c : Nat) (sc : Schema)
    (hrel : relevantType ctype = true) (hnd : (existingRefIds sc).Nodup)
    (hne : ∀ it ∈ relItems sc, it.ref_id ≠ "") :
    ∃ r c2 sc2, addConstant constantName ctype c sc = (r, c2, sc2) ∧
      addConstant constantName ctype c2 sc2 = (r, c2, sc2) := by
  rcases hfind : getRefIdByName sc constantName with _ | r0
  · obtain ⟨r, c2, sc2, heq, hrne, _, _, _, _, _, hresolve, _, _, _, _⟩ :=
      addConstantNew_spec constantName ctype c sc hrel hnd
    have hres2 := hresolve hfind
    refine ⟨r, c2, sc2, by rw [addConstant_eq_new_of_none _ _ _ _ hfind, heq], ?_⟩
    exact addConstant_eq_found _ _ _ _ _ hres2 hrne
  · obtain ⟨it, hmem, _, _, hrid⟩ := getRefIdByName_some sc constantName r0 hfind
    have hr0 : r0 ≠ "" := hrid ▸ hne it hmem
    exact ⟨r0, c, sc, addConstant_eq_found _ _ _ _ _ hfind hr0,
      addConstant_eq_found _ _ _ _ _ hfind hr0⟩

/-- Instantiation of ensure_idempotent on the default schema with the name
prod and the Static Group kind. -/
theorem ensure_idempotent_witness :
    relevantType "Static Group" = true ∧
    (existingRefIds defaultSchema).Nodup ∧
    (∀ it ∈ relItems defaultSchema, it.ref_id ≠ "") ∧
    ∃ r c2 sc2, addConstant "prod" "Static Group" 100 defaultSchema = (r, c2, sc2) ∧
      addConstant "prod" "Static Group" c2 sc2 = (r, c2, sc2) :=
  ⟨by decide, by decide, by decide,
    ensure_idempotent "prod" "Static Group" 100 defaultSchema (by decide) (by decide) (by decide)⟩

/-! Facts about the field coercions. -/

theorem truthyS_some (o : Option String) (h : truthyS o = true) :
    ∃ s, o = some s ∧ s ≠ "" := by
  cases o with
  | none => simp [truthyS] at h
  | some s => exact ⟨s, rfl, by simpa [truthyS] using h⟩

theorem unwrapField_wrapField (f : Option FieldVal) (h : fieldOk f = true) :
    unwrapField (wrapField f) = .ok f := by
  match f with
  | none => rfl
  | some (.str s) => rfl
  | some (.list l) => simp [fieldOk] at h

theorem unwrapClause_wrapClause (cl : Clause) (h : clauseOk cl = true) :
    unwrapClause (wrapClause cl) = .ok cl := by
  obtain ⟨f, tf, ex⟩ := cl
  rw [clauseOk, Bool.and_eq_true] at h
  show unwrapClause { field := wrapField f, tag_field := wrapField tf, extra := ex } = _
  rw [unwrapClause]
  have h1 : unwrapField ({ field := wrapField f, tag_field := wrapField tf, extra := ex }
      : Clause).field = .ok f := unwrapField_wrapField f h.1
  have h2 : unwrapField ({ field := wrapField f, tag_field := wrapField tf, extra := ex }
      : Clause).tag_field = .ok tf := unwrapField_wrapField tf h.2
  rw [h1, h2]

theorem unwrapClauses_map_wrapClause (cls : List Clause) (h : cls.all clauseOk = true) :
    unwrapClauses (cls.map wrapClause) = .ok cls := by
  induction cls with
  | nil => rfl
  | cons cl rest ih =>
    rw [List.all_cons, Bool.and_eq_true] at h
    rw [List.map_cons, unwrapClauses, unwrapClause_wrapClause cl h.1, ih h.2]

/-! Reduction lemmas for the two successful branches of the rule
translation, and computation of the derive direction on their outputs. -/

theorem specRuleName_eq_groupName (r : Rule) (hsome : r.to_.isSome = true)
    (ht : (truthyS r.to_ || truthyS r.ref_id) = true) :
    specRuleName r = .ok (ruleGroupName r) := by
  obtain ⟨tv, hto⟩ := Option.isSome_iff_exists.mp hsome
  by_cases htv : tv = ""
  · subst htv
    have hto_f : truthyS r.to_ = false := by rw [hto]; rfl
    rw [hto_f, Bool.false_or] at ht
    obtain ⟨w, hrid, hw⟩ := truthyS_some _ ht
    rw [specRuleName, hto, ruleGroupName, hto, hrid]
    simp
  · rw [specRuleName, hto, ruleGroupName, hto]
    simp [htv]

theorem specRuleToSchema_filter_eq (r : Rule) (c : Nat) (sc : Schema) (w : String)
    (hnm : specRuleName r = .ok w)
    (hty : strToLower r.type = "filter" ∨ strToLower r.type = "search") :
    specRuleToSchema r c sc =
      .ok (filterSchemaRule r (addConstant w "Static Group" c sc).1,
        (addConstant w "Static Group" c sc).2.1,
        { (addConstant w "Static Group" c sc).2.2 with
          rules := (addConstant w "Static Group" c sc).2.2.rules ++
            [filterSchemaRule r (addConstant w "Static Group" c sc).1] }) := by
  rw [specRuleToSchema, hnm]
  dsimp only
  rw [if_pos hty]

theorem specRuleToSchema_categorize_eq (r : Rule) (c : Nat) (sc : Schema) (w : String)
    (hnm : specRuleName r = .ok w)
    (hty1 : ¬(strToLower r.type = "filter" ∨ strToLower r.type = "search"))
    (hty2 : strToLower r.type = "categorize") :
    specRuleToSchema r c sc =
      .ok (categorizeSchemaRule r (addConstant w "Dynamic Group Block" c sc).1,
        (addConstant w "Dynamic Group Block" c sc).2.1,
        { (addConstant w "Dynamic Group Block" c sc).2.2 with
          rules := (addConstant w "Dynamic Group Block" c sc).2.2.rules ++
            [categorizeSchemaRule r (addConstant w "Dynamic Group Block" c sc).1] }) := by
  rw [specRuleToSchema, hnm]
  dsimp only
  rw [if_neg hty1, if_pos hty2]

theorem specFormRule_filterSchemaRule (scF : Schema) (r : Rule) (rid n : String)
    (hf : fieldOk r.field = true) (htf : fieldOk r.tag_field = true)
    (hcond : condOk r.condition = true) (hnr : truthyS r.ref_id = false)
    (hres : getNameByRefId scF rid = some n) :
    specFormRule scF (filterSchemaRule r rid) =
      .ok { r with type := "filter", to_ := some n } := by
  obtain ⟨rty, rf, rtf, rto, rrid, rcond⟩ := r
  have hcase : rrid = none ∨ rrid = some "" := by
    cases rrid with
    | none => exact Or.inl rfl
    | some s =>
      refine Or.inr ?_
      have : s = "" := by simpa [truthyS] using hnr
      rw [this]
  simp only [filterSchemaRule]
  rcases hcase with h | h <;> subst h <;>
  · rw [specFormRule]
    rw [if_neg (by simp [truthyS])]
    dsimp only
    rw [hres]
    simp only [Option.getD_some]
    rw [unwrapField_wrapField rf hf, unwrapField_wrapField rtf htf]
    dsimp only
    cases rcond with
    | none => rfl
    | some cond =>
      obtain ⟨cls⟩ := cond
      simp only [Option.map_some']
      rw [unwrapClauses_map_wrapClause cls (by simpa [condOk] using hcond)]

theorem specFormRule_categorizeSchemaRule (scF : Schema) (r : Rule) (rid n : String)
    (hf : fieldOk r.field = true) (htf : fieldOk r.tag_field = true)
    (hcond : condOk r.condition = true) (hrne : rid ≠ "")
    (hres : getNameByRefId scF rid = some n) :
    specFormRule scF (categorizeSchemaRule r rid) =
      .ok { r with to_ := some n, ref_id := none } := by
  obtain ⟨rty, rf, rtf, rto, rrid, rcond⟩ := r
  simp only [categorizeSchemaRule]
  rw [specFormRule]
  rw [if_pos (by simp [truthyS, hrne])]
  dsimp only
  rw [hres]
  simp only [Option.getD_some]
  rw [unwrapField_wrapField rf hf, unwrapField_wrapField rtf htf]
  dsimp only
  cases rcond with
  | none => rfl
  | some cond =>
    obtain ⟨cls⟩ := cond
    simp only [Option.map_some']
    rw [unwrapClauses_map_wrapClause cls (by simpa [condOk] using hcond)]

theorem ruleGroupName_ne_empty (r : Rule) (hsome : r.to_.isSome = true)
    (ht : (truthyS r.to_ || truthyS r.ref_id) = true) : ruleGroupName r ≠ "" := by
  obtain ⟨tv, hto⟩ := Option.isSome_iff_exists.mp hsome
  rw [ruleGroupName, hto]
  by_cases htv : tv = ""
  · subst htv
    have hto_f : truthyS r.to_ = false := by rw [hto]; rfl
    rw [hto_f, Bool.false_or] at ht
    obtain ⟨w, hrid, hw⟩ := truthyS_some _ ht
    rw [hrid]
    simpa using hw
  · simp [htv]

/-- The per-rule content of the round trip: a good spec rule translates
successfully, appending exactly one schema rule, preserving the ref_id
uniqueness invariant and every established name resolution, establishing
the resolution of the allocated ref_id to the rule's group name, and the
translated rule derives back (in any schema where that resolution holds) to
a rule with the same comparison tuple. -/
theorem specRuleToSchema_good (r : Rule) (c : Nat) (sc : Schema)
    (hg : goodRule r = true) (hnd : (existingRefIds sc).Nodup) :
    ∃ r2 c2 sc2 rid,
      specRuleToSchema r c sc = .ok (r2, c2, sc2) ∧
      sc2.rules = sc.rules ++ [r2] ∧
      (existingRefIds sc2).Nodup ∧
      (∀ v n, getNameByRefId sc v = some n → getNameByRefId sc2 v = some n) ∧
      getNameByRefId sc2 rid = some (ruleGroupName r) ∧
      sc2.name = sc.name ∧ sc2.include_in_reports = sc.include_in_reports ∧
      sc2.merges = sc.merges ∧
      (∀ scF : Schema, getNameByRefId scF rid = some (ruleGroupName r) →
        ∃ r3, specFormRule scF r2 = .ok r3 ∧ ruleTuple r3 = ruleTuple r) := by
  rw [goodRule] at hg
  simp only [Bool.and_eq_true, Bool.or_eq_true, beq_iff_eq, Bool.not_eq_true'] at hg
  obtain ⟨⟨⟨hf, htf⟩, hcond⟩, hAB⟩ := hg
  rcases hAB with hA | hB
  · -- filter rule
    obtain ⟨⟨hty, hto⟩, hnr⟩ := hA
    have hsome : r.to_.isSome = true := by
      obtain ⟨tv, h, _⟩ := truthyS_some _ hto
      rw [h]
      rfl
    have htor : (truthyS r.to_ || truthyS r.ref_id) = true := by rw [hto]; rfl
    have hnm := specRuleName_eq_groupName r hsome htor
    have hgne := ruleGroupName_ne_empty r hsome htor
    have hlow : strToLower r.type = "filter" := by rw [hty]; decide
    obtain ⟨rid, c2, scA, heqA, hrne, hnd2, hmono, hres, hrules, hname, hinc, hmerge⟩ :=
      addConstant_spec (ruleGroupName r) "Static Group" c sc (by decide) hnd
    have heq := specRuleToSchema_filter_eq r c sc (ruleGroupName r) hnm (Or.inl hlow)
    rw [heqA] at heq
    refine ⟨filterSchemaRule r rid, c2, _, rid, heq, ?_, hnd2, hmono, hres, hname, hinc,
      hmerge, ?_⟩
    · show scA.rules ++ [filterSchemaRule r rid] = sc.rules ++ [filterSchemaRule r rid]
      rw [hrules]
    · intro scF hresF
      refine ⟨_, specFormRule_filterSchemaRule scF r rid (ruleGroupName r) hf htf hcond
        hnr hresF, ?_⟩
      have hgn : ruleGroupName { r with type := "filter", to_ := some (ruleGroupName r) }
          = ruleGroupName r := by
        rw [ruleGroupName]
        dsimp only
        rw [if_pos hgne]
      rw [ruleTuple, ruleTuple, hgn, hty]
  · -- categorize rule
    obtain ⟨⟨hty, hsome⟩, htor0⟩ := hB
    have htor : (truthyS r.to_ || truthyS r.ref_id) = true := by
      rcases htor0 with h | h <;> simp [h]
    have hnm := specRuleName_eq_groupName r hsome htor
    have hgne := ruleGroupName_ne_empty r hsome htor
    have hlow : strToLower r.type = "categorize" := by rw [hty]; decide
    have hty1 : ¬(strToLower r.type = "filter" ∨ strToLower r.type = "search") := by
      rw [hlow]
      decide
    obtain ⟨rid, c2, scA, heqA, hrne, hnd2, hmono, hres, hrules, hname, hinc, hmerge⟩ :=
      addConstant_spec (ruleGroupName r) "Dynamic Group Block" c sc (by decide) hnd
    have heq := specRuleToSchema_categorize_eq r c sc (ruleGroupName r) hnm hty1 hlow
    rw [heqA] at heq
    refine ⟨categorizeSchemaRule r rid, c2, _, rid, heq, ?_, hnd2, hmono, hres, hname, hinc,
      hmerge, ?_⟩
    · show scA.rules ++ [categorizeSchemaRule r rid] = sc.rules ++ [categorizeSchemaRule r rid]
      rw [hrules]
    · intro scF hresF
      refine ⟨_, specFormRule_categorizeSchemaRule scF r rid (ruleGroupName r) hf htf hcond
        hrne hresF, ?_⟩
      have hgn : ruleGroupName { r with to_ := some (ruleGroupName r), ref_id := none }
          = ruleGroupName r := by
        rw [ruleGroupName]
        dsimp only
        rw [if_pos hgne]
      rw [ruleTuple, ruleTuple, hgn]

theorem applyRules_good :
    ∀ (rules : List Rule) (c : Nat) (sc : Schema),
      (∀ r ∈ rules, goodRule r = true) → (existingRefIds sc).Nodup →
      ∃ c2 sc2, applyRules rules c sc = .ok (c2, sc2) ∧
        (existingRefIds sc2).Nodup ∧
        (∀ v n, getNameByRefId sc v = some n → getNameByRefId sc2 v = some n) ∧
        sc2.name = sc.name ∧ sc2.include_in_reports = sc.include_in_reports ∧
        sc2.merges = sc.merges ∧
        ∃ ts : List Rule, sc2.rules = sc.rules ++ ts ∧
          ∀ scF : Schema,
            (∀ v n, getNameByRefId sc2 v = some n → getNameByRefId scF v = some n) →
            ∃ ts2, specFormRules scF ts = .ok ts2 ∧
              ts2.map ruleTuple = rules.map ruleTuple := by
  intro rules
  induction rules with
  | nil =>
    intro c sc _ hnd
    exact ⟨c, sc, rfl, hnd, fun v n h => h, rfl, rfl, rfl, [], by simp,
      fun scF _ => ⟨[], rfl, rfl⟩⟩
  | cons r rest ih =>
    intro c sc hg hnd
    obtain ⟨r2, c2, sc2, rid, heq, hrules2, hnd2, hmono2, hres2, hname2, hinc2, hmerge2,
      hderive⟩ := specRuleToSchema_good r c sc (hg r (by simp)) hnd
    obtain ⟨c3, sc3, heq3, hnd3, hmono3, hname3, hinc3, hmerge3, ts, hts, hder3⟩ :=
      ih c2 sc2 (fun x hx => hg x (by simp [hx])) hnd2
    refine ⟨c3, sc3, ?_, hnd3, fun v n h => hmono3 v n (hmono2 v n h), ?_, ?_, ?_,
      r2 :: ts, ?_, ?_⟩
    · rw [applyRules, heq]
      exact heq3
    · rw [hname3, hname2]
    · rw [hinc3, hinc2]
    · rw [hmerge3, hmerge2]
    · rw [hts, hrules2]
      simp
    · intro scF hmonoF
      obtain ⟨r3, hr3, htuple⟩ := hderive scF (hmonoF _ _ (hmono3 _ _ hres2))
      obtain ⟨ts2, hts2, htuples⟩ := hder3 scF hmonoF
      refine ⟨r3 :: ts2, ?_, ?_⟩
      · rw [specFormRules, hr3, hts2]
      · simp [htuple, htuples]

theorem applyRules_derive (rules : List Rule) (c : Nat) (B : Schema)
    (hnde : (existingRefIds B).Nodup) (hg : ∀ r ∈ rules, goodRule r = true)
    (hB : B.rules = []) :
    ∃ c2 sc2, applyRules rules c B = .ok (c2, sc2) ∧
      ∃ spec2, specFromSchema sc2 = .ok spec2 ∧
        spec2.rules.map ruleTuple = rules.map ruleTuple := by
  obtain ⟨c2, sc2, heq, hnd2, hmono, _, _, _, ts, hts, hder⟩ :=
    applyRules_good rules c B hg hnde
  rw [hB, List.nil_append] at hts
  obtain ⟨ts2, hts2, htuples⟩ := hder sc2 (fun v n h => h)
  refine ⟨c2, sc2, heq,
    { name := sc2.name, include_in_reports := some sc2.include_in_reports, rules := ts2 },
    ?_, by simpa using htuples⟩
  rw [specFromSchema, hts, hts2]

/-- C1 (amended).  Round trip: over a schema whose relevant ref_ids are
pairwise distinct, for a spec whose rules all have scalar field values, the
canonical lowercase types filter or categorize, and a well-formed group
reference (a truthy to for a filter rule, with no truthy leftover ref_id
key on it; a present to key and a truthy to or ref_id for a categorize
rule), applying the spec and deriving a spec back succeeds and returns
rules whose (type, group name, field, tag_field, condition) tuples are
pointwise, hence also as a set, the tuples of the original rules. -/
theorem round_trip (spec : Spec) (c : Nat) (sc : Schema)
    (hnd : (existingRefIds sc).Nodup)
    (hg : ∀ r ∈ spec.rules, goodRule r = true) :
    ∃ c2 sc2 spec2, schemaFromSpec spec c sc = .ok (c2, sc2) ∧
      specFromSchema sc2 = .ok spec2 ∧
      spec2.rules.map ruleTuple = spec.rules.map ruleTuple := by
  obtain ⟨sname, sinc, srules⟩ := spec
  rw [schemaFromSpec]
  dsimp only
  cases sinc with
  | none =>
    obtain ⟨c2, sc2, heq, spec2, hder, htp⟩ :=
      applyRules_derive srules c { sc with name := sname, rules := [] } hnd
        (by simpa using hg) rfl
    exact ⟨c2, sc2, spec2, heq, hder, htp⟩
  | some v =>
    dsimp only
    by_cases hv : incTruthy v
    · rw [if_pos hv]
      obtain ⟨c2, sc2, heq, spec2, hder, htp⟩ :=
        applyRules_derive srules c
          { sc with name := sname, include_in_reports := v, rules := [] } hnd
          (by simpa using hg) rfl
      exact ⟨c2, sc2, spec2, heq, hder, htp⟩
    · rw [if_neg hv]
      obtain ⟨c2, sc2, heq, spec2, hder, htp⟩ :=
        applyRules_derive srules c { sc with name := sname, rules := [] } hnd
          (by simpa using hg) rfl
      exact ⟨c2, sc2, spec2, heq, hder, htp⟩

/-- Instantiation of round_trip on Scenario A's spec and the default
schema. -/
theorem round_trip_witness :
    (existingRefIds defaultSchema).Nodup ∧
    (∀ r ∈ envSpec.rules, goodRule r = true) ∧
    ∃ c2 sc2 spec2, schemaFromSpec envSpec 100 defaultSchema = .ok (c2, sc2) ∧
      specFromSchema sc2 = .ok spec2 ∧
      spec2.rules.map ruleTuple = envSpec.rules.map ruleTuple :=
  ⟨by decide, by decide, round_trip envSpec 100 defaultSchema (by decide) (by decide)⟩

/-! Frame lemmas: translation only touches constants and rules. -/

theorem addConstantNew_frames (n t : String) (c : Nat) (sc : Schema) :
    (addConstantNew n t c sc).2.2.rules = sc.rules ∧
    (addConstantNew n t c sc).2.2.include_in_reports = sc.include_in_reports := by
  rw [addConstantNew]
  dsimp only
  split <;> exact ⟨rfl, rfl⟩

theorem addConstant_frames (n t : String) (c : Nat) (sc : Schema) :
    (addConstant n t c sc).2.2.rules = sc.rules ∧
    (addConstant n t c sc).2.2.include_in_reports = sc.include_in_reports := by
  rw [addConstant]
  rcases getRefIdByName sc n with _ | r
  · exact addConstantNew_frames n t c sc
  · dsimp only
    split
    · exact ⟨rfl, rfl⟩
    · exact addConstantNew_frames n t c sc

theorem specRuleToSchema_ok_shape (r : Rule) (c : Nat) (sc : Schema) (r2 : Rule) (c2 : Nat)
    (sc2 : Schema) (h : specRuleToSchema r c sc = .ok (r2, c2, sc2)) :
    sc2.rules = sc.rules ++ [r2] ∧ sc2.include_in_reports = sc.include_in_reports ∧
    r2.field = wrapField r.field ∧ r2.tag_field = wrapField r.tag_field := by
  rw [specRuleToSchema] at h
  rcases hnm : specRuleName r with e | w <;> rw [hnm] at h
  · simp at h
  · dsimp only at h
    split at h
    · simp only [Except.ok.injEq, Prod.mk.injEq] at h
      obtain ⟨hr2, _, hsc2⟩ := h
      subst hr2
      subst hsc2
      refine ⟨?_, (addConstant_frames w "Static Group" c sc).2, rfl, rfl⟩
      show (addConstant w "Static Group" c sc).2.2.rules ++ _ = sc.rules ++ _
      rw [(addConstant_frames w "Static Group" c sc).1]
    · split at h
      · simp only [Except.ok.injEq, Prod.mk.injEq] at h
        obtain ⟨hr2, _, hsc2⟩ := h
        subst hr2
        subst hsc2
        refine ⟨?_, (addConstant_frames w "Dynamic Group Block" c sc).2, rfl, rfl⟩
        show (addConstant w "Dynamic Group Block" c sc).2.2.rules ++ _ = sc.rules ++ _
        rw [(addConstant_frames w "Dynamic Group Block" c sc).1]
      · simp at h

theorem applyRules_include :
    ∀ (rules : List Rule) (c : Nat) (sc : Schema) (c2 : Nat) (sc2 : Schema),
      applyRules rules c sc = .ok (c2, sc2) →
      sc2.include_in_reports = sc.include_in_reports := by
  intro rules
  induction rules with
  | nil =>
    intro c sc c2 sc2 h
    simp only [applyRules, Except.ok.injEq, Prod.mk.injEq] at h
    rw [← h.2]
  | cons r rest ih =>
    intro c sc c2 sc2 h
    rw [applyRules] at h
    rcases hr : specRuleToSchema r c sc with e | rcs <;> rw [hr] at h
    · simp at h
    · have h1 := ih rcs.2.1 rcs.2.2 c2 sc2 h
      have h2 := (specRuleToSchema_ok_shape r c sc rcs.1 rcs.2.1 rcs.2.2 hr).2.1
      rw [h1, h2]

/-- C7 (amended).  include_in_reports propagation: the spec setter
overwrites the schema flag with the spec value exactly when the spec
carries the key with a truthy value; when the key is absent or its value is
falsy (in particular the boolean false), the schema's existing flag is left
unchanged. -/
theorem include_in_reports_propagation (spec : Spec) (c : Nat) (sc : Schema) (c2 : Nat)
    (sc2 : Schema) (h : schemaFromSpec spec c sc = .ok (c2, sc2)) :
    sc2.include_in_reports =
      (match spec.include_in_reports with
       | some v => if incTruthy v then v else sc.include_in_reports
       | none => sc.include_in_reports) := by
  obtain ⟨sname, sinc, srules⟩ := spec
  rw [schemaFromSpec] at h
  cases sinc with
  | none => exact applyRules_include srules c { sc with name := sname, rules := [] } c2 sc2 h
  | some v =>
    dsimp only at h ⊢
    by_cases hv : incTruthy v
    · rw [if_pos hv] at h ⊢
      exact applyRules_include srules c
        { sc with name := sname, include_in_reports := v, rules := [] } c2 sc2 h
    · rw [if_neg hv] at h ⊢
      exact applyRules_include srules c { sc with name := sname, rules := [] } c2 sc2 h

/-- Instantiation of include_in_reports_propagation on a spec carrying the
boolean true. -/
theorem include_in_reports_propagation_witness :
    ({ defaultSchema with name := "X", include_in_reports := IncVal.bool true }
      : Schema).include_in_reports =
      (match (some (IncVal.bool true) : Option IncVal) with
       | some v => if incTruthy v then v else defaultSchema.include_in_reports
       | none => defaultSchema.include_in_reports) :=
  include_in_reports_propagation
    { name := "X", include_in_reports := some (IncVal.bool true), rules := [] }
    100 defaultSchema 100
    { defaultSchema with name := "X", include_in_reports := IncVal.bool true }
    (by decide)

/-! Success and failure of the derive direction, by field shape. -/

theorem unwrapField_ok_of_not_bad (f : Option FieldVal) (h : badField f = false) :
    unwrapField f = .ok (unwOne f) := by
  match f with
  | none => rfl
  | some (.str s) => rfl
  | some (.list []) => simp [badField] at h
  | some (.list [x]) => rfl
  | some (.list (x :: y :: rest)) => simp [badField] at h

theorem unwrapField_error_of_bad (f : Option FieldVal) (h : badField f = true) :
    unwrapField f = .error .malformedRuleField := by
  match f with
  | none => simp [badField] at h
  | some (.str s) => simp [badField] at h
  | some (.list []) => rfl
  | some (.list [x]) => simp [badField] at h
  | some (.list (x :: y :: rest)) => rfl

theorem unwrapClause_ok (cl : Clause) (h : badClause cl = false) :
    unwrapClause cl = .ok (clauseUnw cl) := by
  rw [badClause, Bool.or_eq_false_iff] at h
  rw [unwrapClause, unwrapField_ok_of_not_bad cl.field h.1,
    unwrapField_ok_of_not_bad cl.tag_field h.2]
  rfl

theorem unwrapClause_error (cl : Clause) (h : badClause cl = true) :
    unwrapClause cl = .error .malformedRuleField := by
  rw [badClause, Bool.or_eq_true] at h
  by_cases h1 : badField cl.field = true
  · rw [unwrapClause, unwrapField_error_of_bad cl.field h1]
  · have h2 : badField cl.tag_field = true := by
      rcases h with h | h
      · exact absurd h h1
      · exact h
    have h1' : badField cl.field = false := by
      rwa [Bool.not_eq_true] at h1
    rw [unwrapClause, unwrapField_ok_of_not_bad cl.field h1',
      unwrapField_error_of_bad cl.tag_field h2]

theorem unwrapClauses_ok (cls : List Clause) (h : cls.any badClause = false) :
    unwrapClauses cls = .ok (cls.map clauseUnw) := by
  induction cls with
  | nil => rfl
  | cons cl rest ih =>
    rw [List.any_cons, Bool.or_eq_false_iff] at h
    rw [unwrapClauses, unwrapClause_ok cl h.1, ih h.2, List.map_cons]

theorem unwrapClauses_error (cls : List Clause) (h : cls.any badClause = true) :
    unwrapClauses cls = .error .malformedRuleField := by
  induction cls with
  | nil => simp at h
  | cons cl rest ih =>
    rw [List.any_cons, Bool.or_eq_true] at h
    by_cases h1 : badClause cl = true
    · rw [unwrapClauses, unwrapClause_error cl h1]
    · have h2 : rest.any badClause = true := by
        rcases h with h | h
        · exact absurd h h1
        · exact h
      have h1' : badClause cl = false := by rwa [Bool.not_eq_true] at h1
      rw [unwrapClauses, unwrapClause_ok cl h1', ih h2]

theorem keysOk_some (r : Rule) (hk : keysOk r = true) :
    ∃ v, (if truthyS r.ref_id then r.ref_id else r.to_) = some v := by
  rw [keysOk, Bool.or_eq_true] at hk
  by_cases ht : truthyS r.ref_id = true
  · obtain ⟨s, hs, _⟩ := truthyS_some _ ht
    exact ⟨s, by rw [if_pos ht]; exact hs⟩
  · rcases hk with h | h
    · exact absurd h ht
    · obtain ⟨v, hv⟩ := Option.isSome_iff_exists.mp h
      exact ⟨v, by rw [if_neg ht]; exact hv⟩

theorem specFormRule_ok (sc : Schema) (r : Rule) (v : String)
    (hv : (if truthyS r.ref_id then r.ref_id else r.to_) = some v)
    (hb : badRule r = false) :
    specFormRule sc r = .ok
      { r with
        to_ := some ((getNameByRefId sc v).getD "")
        ref_id := if truthyS r.ref_id then none else r.ref_id
        field := unwOne r.field
        tag_field := unwOne r.tag_field
        condition := condUnw r.condition } := by
  rw [badRule] at hb
  simp only [Bool.or_eq_false_iff] at hb
  obtain ⟨⟨hb1, hb2⟩, hb3⟩ := hb
  rw [specFormRule]
  by_cases ht : truthyS r.ref_id = true
  · rw [if_pos ht] at hv ⊢
    rw [if_pos ht]
    dsimp only
    rw [hv]
    dsimp only
    rw [unwrapField_ok_of_not_bad r.field hb1, unwrapField_ok_of_not_bad r.tag_field hb2]
    dsimp only
    rcases hc : r.condition with _ | cond
    · dsimp only [condUnw]
    · rw [hc] at hb3
      simp only at hb3
      obtain ⟨cls⟩ := cond
      dsimp only
      rw [unwrapClauses_ok cls hb3]
      rfl
  · rw [if_neg ht] at hv ⊢
    rw [if_neg ht]
    dsimp only
    rw [hv]
    dsimp only
    rw [unwrapField_ok_of_not_bad r.field hb1, unwrapField_ok_of_not_bad r.tag_field hb2]
    dsimp only
    rcases hc : r.condition with _ | cond
    · dsimp only [condUnw]
    · rw [hc] at hb3
      simp only at hb3
      obtain ⟨cls⟩ := cond
      dsimp only
      rw [unwrapClauses_ok cls hb3]
      rfl

theorem specFormRule_error_of_bad (sc : Schema) (r : Rule) (v : String)
    (hv : (if truthyS r.ref_id then r.ref_id else r.to_) = some v)
    (hb : badRule r = true) :
    specFormRule sc r = .error .malformedRuleField := by
  have h3cond : badField r.field = false → badField r.tag_field = false →
      (match r.condition with
       | some cond => cond.clauses.any badClause
       | none => false) = true := by
    intro h1 h2
    rw [badRule] at hb
    simp only [Bool.or_eq_true] at hb
    rcases hb with (h | h) | h
    · rw [h1] at h
      exact absurd h (by simp)
    · rw [h2] at h
      exact absurd h (by simp)
    · exact h
  rw [specFormRule]
  by_cases ht : truthyS r.ref_id = true
  · rw [if_pos ht] at hv ⊢
    dsimp only
    rw [hv]
    dsimp only
    by_cases h1 : badField r.field = true
    · rw [unwrapField_error_of_bad r.field h1]
    · have h1' : badField r.field = false := by rwa [Bool.not_eq_true] at h1
      rw [unwrapField_ok_of_not_bad r.field h1']
      dsimp only
      by_cases h2 : badField r.tag_field = true
      · rw [unwrapField_error_of_bad r.tag_field h2]
      · have h2' : badField r.tag_field = false := by rwa [Bool.not_eq_true] at h2
        rw [unwrapField_ok_of_not_bad r.tag_field h2']
        dsimp only
        have h3 := h3cond h1' h2'
        rcases hc : r.condition with _ | cond
        · rw [hc] at h3
          simp at h3
        · rw [hc] at h3
          simp only at h3
          obtain ⟨cls⟩ := cond
          dsimp only
          rw [unwrapClauses_error cls h3]
  · rw [if_neg ht] at hv ⊢
    dsimp only
    rw [hv]
    dsimp only
    by_cases h1 : badField r.field = true
    · rw [unwrapField_error_of_bad r.field h1]
    · have h1' : badField r.field = false := by rwa [Bool.not_eq_true] at h1
      rw [unwrapField_ok_of_not_bad r.field h1']
      dsimp only
      by_cases h2 : badField r.tag_field = true
      · rw [unwrapField_error_of_bad r.tag_field h2]
      · have h2' : badField r.tag_field = false := by rwa [Bool.not_eq_true] at h2
        rw [unwrapField_ok_of_not_bad r.tag_field h2']
        dsimp only
        have h3 := h3cond h1' h2'
        rcases hc : r.condition with _ | cond
        · rw [hc] at h3
          simp at h3
        · rw [hc] at h3
          simp only at h3
          obtain ⟨cls⟩ := cond
          dsimp only
          rw [unwrapClauses_error cls h3]

theorem specFormRules_shape (sc : Schema) :
    ∀ rules : List Rule, (∀ r ∈ rules, keysOk r = true) →
      (rules.any badRule = true → specFormRules sc rules = .error .malformedRuleField) ∧
      (rules.any badRule = false → ∃ rs2, specFormRules sc rules = .ok rs2 ∧
        List.Forall₂ (fun r3 r => r3.field = unwOne r.field ∧
          r3.tag_field = unwOne r.tag_field ∧ r3.condition = condUnw r.condition) rs2 rules) := by
  intro rules
  induction rules with
  | nil => exact fun _ => ⟨by simp, fun _ => ⟨[], rfl, List.Forall₂.nil⟩⟩
  | cons r rest ih =>
    intro hk
    obtain ⟨v, hv⟩ := keysOk_some r (hk r (by simp))
    obtain ⟨ihE, ihO⟩ := ih (fun x hx => hk x (by simp [hx]))
    constructor
    · intro hany
      rw [List.any_cons, Bool.or_eq_true] at hany
      by_cases hbr : badRule r = true
      · rw [specFormRules, specFormRule_error_of_bad sc r v hv hbr]
      · have hbr' : badRule r = false := by rwa [Bool.not_eq_true] at hbr
        have hrest : rest.any badRule = true := by
          rcases hany with h | h
          · exact absurd h hbr
          · exact h
        rw [specFormRules, specFormRule_ok sc r v hv hbr', ihE hrest]
    · intro hany
      rw [List.any_cons, Bool.or_eq_false_iff] at hany
      obtain ⟨rs2, hrs2, hfa⟩ := ihO hany.2
      refine ⟨({ r with
          to_ := some ((getNameByRefId sc v).getD "")
          ref_id := if truthyS r.ref_id then none else r.ref_id
          field := unwOne r.field
          tag_field := unwOne r.tag_field
          condition := condUnw r.condition } : Rule) :: rs2, ?_, ?_⟩
      · rw [specFormRules, specFormRule_ok sc r v hv hany.1, hrs2]
      · exact List.Forall₂.cons ⟨rfl, rfl, rfl⟩ hfa

/-- C6.  Malformed field lists are fatal in derivation: on a schema whose
rules all carry a group reference (a truthy ref_id or a present to key, as
the data model requires), if any field or tag_field value at rule level or
inside a condition clause is a list of length other than one, deriving the
spec fails with the MalformedRuleField error; when no such list exists the
derivation succeeds and every one-element list is replaced by its single
element (and everything else is untouched) at rule level and clause
level. -/
theorem malformed_field_lists (sc : Schema) (hk : ∀ r ∈ sc.rules, keysOk r = true) :
    (sc.rules.any badRule = true → specFromSchema sc = .error .malformedRuleField) ∧
    (sc.rules.any badRule = false → ∃ spec2, specFromSchema sc = .ok spec2 ∧
      List.Forall₂ (fun r3 r => r3.field = unwOne r.field ∧
        r3.tag_field = unwOne r.tag_field ∧ r3.condition = condUnw r.condition)
        spec2.rules sc.rules) := by
  obtain ⟨hE, hO⟩ := specFormRules_shape sc sc.rules hk
  constructor
  · intro h
    rw [specFromSchema, hE h]
  · intro h
    obtain ⟨rs2, hrs2, hfa⟩ := hO h
    exact ⟨{ name := sc.name, include_in_reports := some sc.include_in_reports, rules := rs2 },
      by rw [specFromSchema, hrs2], hfa⟩

/-- Instantiation of malformed_field_lists on Scenario D's schema with a
two-element field list. -/
theorem malformed_field_lists_witness :
    (∀ r ∈ twoFieldSchema.rules, keysOk r = true) ∧
    twoFieldSchema.rules.any badRule = true ∧
    specFromSchema twoFieldSchema = .error .malformedRuleField :=
  ⟨by decide, by decide, (malformed_field_lists twoFieldSchema (by decide)).1 (by decide)⟩

/-- C4 (amended).  Unresolved references are not fatal in derivation: for a
rule whose effective group reference (the truthy ref_id if any, else the to
value) resolves to no non-Other item of a Static Group or Dynamic Group
Block constant, and whose field lists are well formed, the per-rule
derivation succeeds and silently sets the rule's to key to the null name
(modelled as the empty string) instead of raising any error. -/
theorem unresolved_reference_silent (sc : Schema) (r : Rule) (v : String)
    (hv : (if truthyS r.ref_id then r.ref_id else r.to_) = some v)
    (hres : getNameByRefId sc v = none) (hb : badRule r = false) :
    ∃ r3, specFormRule sc r = .ok r3 ∧ r3.to_ = some "" := by
  refine ⟨_, specFormRule_ok sc r v hv hb, ?_⟩
  rw [hres]
  rfl

/-- Instantiation of unresolved_reference_silent on the unresolvable
reference 999 held by a rule with a singleton field list. -/
theorem unresolved_reference_silent_witness :
    ((if truthyS (none : Option String) then (none : Option String) else some "999")
      = some "999") ∧
    getNameByRefId defaultSchema "999" = none ∧
    ∃ r3, specFormRule defaultSchema
        { type := "filter", field := some (.list ["env"]), to_ := some "999" } = .ok r3 ∧
      r3.to_ = some "" :=
  ⟨by decide, by decide,
    unresolved_reference_silent defaultSchema
      { type := "filter", field := some (.list ["env"]), to_ := some "999" } "999"
      (by decide) (by decide) (by decide)⟩

/-! The heap-level model: in-place mutation of the caller's rule dicts. -/

theorem getD_set_ne (l : List Rule) (i j : Nat) (x : Rule) (h : i ≠ j) :
    (l.set i x).getD j dummyRule = l.getD j dummyRule := by
  rw [List.getD_eq_getElem?_getD, List.getD_eq_getElem?_getD, List.getElem?_set_ne h]

theorem getD_set_self (l : List Rule) (i : Nat) (x : Rule) (h : i < l.length) :
    (l.set i x).getD i dummyRule = x := by
  rw [List.getD_eq_getElem?_getD, List.getElem?_set_self h]
  rfl

theorem applyHeap_untouched :
    ∀ (addrs : List Nat) (heap : List Rule) (c : Nat) (sc : Schema)
      (out : List Rule × Nat × Schema × List Nat),
      applyHeap addrs heap c sc = .ok out →
      ∀ b : Nat, b ∉ addrs → out.1.getD b dummyRule = heap.getD b dummyRule := by
  intro addrs
  induction addrs with
  | nil =>
    intro heap c sc out h b _
    simp only [applyHeap, Except.ok.injEq] at h
    rw [← h]
  | cons a as ih =>
    intro heap c sc out h b hb
    rw [applyHeap] at h
    rcases hr : specRuleToSchema (heap.getD a dummyRule) c sc with e | rcs <;> rw [hr] at h
    · simp at h
    · dsimp only at h
      rcases hh : applyHeap as (heap.set a rcs.1) rcs.2.1 rcs.2.2 with e | out2 <;>
        rw [hh] at h
      · simp at h
      · simp only [Except.ok.injEq] at h
        have hbas : b ∉ as := fun hx => hb (by simp [hx])
        have hba : b ≠ a := fun hx => hb (by simp [hx])
        have hstep := ih (heap.set a rcs.1) rcs.2.1 rcs.2.2 out2 hh b hbas
        rw [← h]
        dsimp only
        rw [hstep, getD_set_ne heap a b rcs.1 (Ne.symm hba)]

/-- C10 (amended).  The heap model of the spec setter's rule loop shows the
in-place mutation: on success the address list appended to schema.rules is
exactly the caller's list of rule-object addresses (the very same objects),
each of those cells afterwards holds the corresponding translated
schema-form rule appended to schema.rules, and every rule that carried a
scalar field or tag_field value has genuinely changed (its scalar got
wrapped), so the input spec is not preserved.  (A rule all of whose
translated parts happen to coincide with their originals, as in the
counterexample, may be value-unchanged, which is why the mutation clause is
restricted to scalar-field rules.) -/
theorem apply_heap_mutates :
    ∀ (addrs : List Nat) (heap : List Rule) (c : Nat) (sc : Schema)
      (heap2 : List Rule) (c2 : Nat) (sc2 : Schema) (outs : List Nat),
      addrs.Nodup → (∀ a ∈ addrs, a < heap.length) →
      applyHeap addrs heap c sc = .ok (heap2, c2, sc2, outs) →
      outs = addrs ∧
      (∃ ts, sc2.rules = sc.rules ++ ts ∧
        List.Forall₂ (fun a r2 => heap2.getD a dummyRule = r2) addrs ts) ∧
      (∀ a ∈ addrs, ∀ s : String,
        ((heap.getD a dummyRule).field = some (.str s) ∨
          (heap.getD a dummyRule).tag_field = some (.str s)) →
        heap2.getD a dummyRule ≠ heap.getD a dummyRule) := by
  intro addrs
  induction addrs with
  | nil =>
    intro heap c sc heap2 c2 sc2 outs _ _ h
    simp only [applyHeap, Except.ok.injEq, Prod.mk.injEq] at h
    obtain ⟨h1, _, h3, h4⟩ := h
    subst h1
    subst h3
    subst h4
    exact ⟨rfl, ⟨[], by simp, List.Forall₂.nil⟩, by simp⟩
  | cons a as ih =>
    intro heap c sc heap2 c2 sc2 outs hnd hlt h
    rw [applyHeap] at h
    rcases hr : specRuleToSchema (heap.getD a dummyRule) c sc with e | rcs <;> rw [hr] at h
    · simp at h
    · dsimp only at h
      rcases hh : applyHeap as (heap.set a rcs.1) rcs.2.1 rcs.2.2 with e | out2 <;>
        rw [hh] at h
      · simp at h
      · simp only [Except.ok.injEq, Prod.mk.injEq] at h
        obtain ⟨h1, h2, h3, h4⟩ := h
        rw [List.nodup_cons] at hnd
        obtain ⟨hna, hnd2⟩ := hnd
        obtain ⟨houts, ⟨ts, hts, hfa⟩, hmut⟩ :=
          ih (heap.set a rcs.1) rcs.2.1 rcs.2.2 out2.1 out2.2.1 out2.2.2.1 out2.2.2.2 hnd2
            (fun b hb => by rw [List.length_set]; exact hlt b (by simp [hb])) hh
        have hshape := specRuleToSchema_ok_shape (heap.getD a dummyRule) c sc rcs.1 rcs.2.1
          rcs.2.2 hr
        have huntouched : out2.1.getD a dummyRule = (heap.set a rcs.1).getD a dummyRule :=
          applyHeap_untouched as (heap.set a rcs.1) rcs.2.1 rcs.2.2 out2 hh a hna
        have hset : (heap.set a rcs.1).getD a dummyRule = rcs.1 :=
          getD_set_self heap a rcs.1 (hlt a (by simp))
        refine ⟨by rw [← h4, houts], ⟨rcs.1 :: ts, ?_, ?_⟩, ?_⟩
        · rw [← h3, hts, hshape.1]
          simp
        · refine List.Forall₂.cons ?_ ?_
          · rw [← h1, huntouched, hset]
          · rw [← h1]
            exact hfa
        · intro b hb s hs
          rcases List.mem_cons.mp hb with hba | hbas
          · subst hba
            rw [← h1, huntouched, hset]
            intro hcontra
            rcases hs with hs | hs
            · have hfld := hshape.2.2.1
              rw [hcontra, hs] at hfld
              simp [wrapField] at hfld
            · have hfld := hshape.2.2.2
              rw [hcontra, hs] at hfld
              simp [wrapField] at hfld
          · have hne : a ≠ b := fun hab => hna (hab ▸ hbas)
            have hm := hmut b hbas s (by rw [getD_set_ne heap a b rcs.1 hne]; exact hs)
            rw [getD_set_ne heap a b rcs.1 hne] at hm
            rw [← h1]
            exact hm

/-- Instantiation of apply_heap_mutates on Scenario A's rule held in a
one-cell heap. -/
theorem apply_heap_mutates_witness :
    applyHeap [0] [heapDemoRule] 100 defaultSchema
      = .ok ([heapDemoRule2], 101, heapDemoSchema2, [0]) ∧
    (([0] : List Nat) = [0] ∧
      (∃ ts, heapDemoSchema2.rules = defaultSchema.rules ++ ts ∧
        List.Forall₂ (fun a r2 => ([heapDemoRule2] : List Rule).getD a dummyRule = r2)
          [0] ts) ∧
      (∀ a ∈ ([0] : List Nat), ∀ s : String,
        ((([heapDemoRule] : List Rule).getD a dummyRule).field = some (.str s) ∨
          (([heapDemoRule] : List Rule).getD a dummyRule).tag_field = some (.str s)) →
        ([heapDemoRule2] : List Rule).getD a dummyRule
          ≠ ([heapDemoRule] : List Rule).getD a dummyRule)) :=
  ⟨by decide,
    apply_heap_mutates [0] [heapDemoRule] 100 defaultSchema [heapDemoRule2] 101
      heapDemoSchema2 [0] (by decide) (by decide) (by decide)⟩

end Chtools
